import Mathlib

/-!
The native resource worker of k8s-bigip-ctlr.

A shallow embedding of `pkg/controller/nativeResourceWorker.go`: the route-group
synthesiser (`processRoutes` and its helpers) and the extended-spec reconciler
(`processConfigMap`), followed by the properties proved about them.

Conventions of the embedding.
* Go strings are `String`; `==` is decidable equality, `<` is the lexicographic
  order of the characters (`strLess`), `len(s) == 0` is `s.length == 0`.
* A Go map whose iteration order matters is an association list with one entry
  per key; the order in which `range` visits it is supplied by the environment.
* A nil pointer is `none`; dereferencing it is the panic outcome `none` of
  `processConfigMap`.
* Functions, constants and types this file uses that are declared elsewhere in
  the repository or in libraries are fields of `Env`, or are modelled from the
  specification and say so.
-/

namespace Ctlr

/-! ## Routes -/

/-- The `TLS` block of a route: only the insecure edge termination policy is read. -/
structure TLSConfig where
  InsecureEdgeTerminationPolicy : String
deriving DecidableEq, Repr

/-- The `TargetPort` of a route port, an int-or-string. -/
structure RoutePort where
  StrVal : String
  IntVal : Int
deriving DecidableEq, Repr

/-- The fields of `routeapi.Route` that the worker reads. `ToName` is
`Spec.To.Name`, `Host` and `Path` are `Spec.Host` and `Spec.Path`, and
`CreationTimestamp` is the instant of creation. -/
structure Route where
  Namespace : String
  Name : String
  Host : String
  Path : String
  ToName : String
  Port : Option RoutePort
  TLS : Option TLSConfig
  CreationTimestamp : Int
deriving DecidableEq, Repr

/-- The value of `routeapi.InsecureEdgeTerminationPolicyAllow`. -/
def InsecureEdgeTerminationPolicyAllow : String := "Allow"

/-- The value of `routeapi.InsecureEdgeTerminationPolicyRedirect`. -/
def InsecureEdgeTerminationPolicyRedirect : String := "Redirect"

/-- Go's `<` on strings, as a boolean. -/
def strLess (a b : String) : Bool := decide (a.toList < b.toList)

/-- The `less` closure that `getOrderedRoutes` hands to `sort.Slice`, as a
function of the two routes it compares. -/
def routeLess (ri rj : Route) : Bool :=
  if ri.Host == rj.Host
      && ((ri.Path.length == 0 || rj.Path.length == 0) && (ri.Path == "/" || rj.Path == "/")) then
    decide (ri.CreationTimestamp < rj.CreationTimestamp)
  else
    strLess ri.Host rj.Host
      || (ri.Host == rj.Host && ri.Path == rj.Path
            && decide (ri.CreationTimestamp < rj.CreationTimestamp))
      || (ri.Host == rj.Host && strLess ri.Path rj.Path)

/-- The loop of `getGroupedRoutes`: `seen` is `uniqueHostPathMap`, `assocRoutes`
the routes retained so far. -/
def groupLoop : List Route → List String → List Route → List Route
  | [], _, assocRoutes => assocRoutes
  | route :: rest, seen, assocRoutes =>
    if seen.contains (route.Host ++ route.Path) then
      groupLoop rest seen assocRoutes
    else
      groupLoop rest ((route.Host ++ route.Path) :: seen) (assocRoutes ++ [route])

/-- The deduplication of `getGroupedRoutes`, applied to the ordered routes of
the group. -/
def dedupRoutes (orderedRoutes : List Route) : List Route :=
  groupLoop orderedRoutes [] []

/-- The key under which `getGroupedRoutes` records a route. -/
def hostPathKey (r : Route) : String := r.Host ++ r.Path

def isSecureRoute (route : Route) : Bool := route.TLS.isSome

def doRoutesHandleHTTP : List Route → Bool
  | [] => false
  | route :: rest =>
    match route.TLS with
    | none => true
    | some tls =>
      if tls.InsecureEdgeTerminationPolicy == InsecureEdgeTerminationPolicyAllow
          || tls.InsecureEdgeTerminationPolicy == InsecureEdgeTerminationPolicyRedirect then
        true
      else
        doRoutesHandleHTTP rest

structure portStruct where
  protocol : String
  port : Nat
deriving DecidableEq, Repr

/-- The two port constants, declared outside the source files. -/
structure Ports where
  DEFAULT_HTTP_PORT : Nat
  DEFAULT_HTTPS_PORT : Nat

def getBasicVirtualPorts (k : Ports) : List portStruct :=
  [⟨"http", k.DEFAULT_HTTP_PORT⟩, ⟨"https", k.DEFAULT_HTTPS_PORT⟩]

def getVirtualPortsForRoutes (k : Ports) (routes : List Route) : List portStruct :=
  if routes.any isSecureRoute then getBasicVirtualPorts k
  else [⟨"http", k.DEFAULT_HTTP_PORT⟩]

/-- The guard at the head of the port loop of `processRoutes`: the port is
skipped (and its virtual server deleted) when it is the http port and no route
handles HTTP traffic. -/
def skipsPort (routes : List Route) (ps : portStruct) : Bool :=
  ps.protocol == "http" && !doRoutesHandleHTTP routes

/-- The ports for which the port loop of `processRoutes` goes on to build a
config. -/
def builtPorts (k : Ports) (routes : List Route) : List portStruct :=
  (getVirtualPortsForRoutes k routes).filter (fun ps => !skipsPort routes ps)

/-! ## Go maps and slices -/

/-- The assignment `m[k] = v` on a Go map held as an association list. -/
def mapSet {β : Type} : List (String × β) → String → β → List (String × β)
  | [], k, v => [(k, v)]
  | (k', v') :: rest, k, v =>
    if k' == k then (k, v) :: rest else (k', v') :: mapSet rest k v

/-- The statement `delete(m, k)`. -/
def mapDelete {β : Type} (m : List (String × β)) (k : String) : List (String × β) :=
  m.filter (fun e => e.1 != k)

/-- A Go slice of strings: the backing array it points into, its length and
its capacity. -/
structure Slice where
  arr : Nat
  len : Nat
  cap : Nat
deriving DecidableEq, Repr

/-- The backing arrays allocated so far, addressed by position. -/
abbrev Heap := List (List String)

/-- The nil slice, the value of an uninitialised `[]string` variable. -/
def Slice.nil : Slice := ⟨0, 0, 0⟩

/-- The elements a slice denotes in a heap. -/
def Heap.elems (h : Heap) (s : Slice) : List String :=
  (h.getD s.arr []).take s.len

/-- Go's `append(s, x)` for one element: it writes into the backing array of
`s` when there is spare capacity, so that the result shares that array with `s`
and with every other slice cut from it, and otherwise copies the elements to a
fresh array whose capacity the runtime chooses (`growCap`, given the old
capacity; never less than the new length). -/
def goAppend (growCap : Nat → Nat) (h : Heap) (s : Slice) (x : String) : Heap × Slice :=
  if s.len < s.cap then
    (h.set s.arr ((h.getD s.arr []).set s.len x), { s with len := s.len + 1 })
  else
    let newCap := max (growCap s.cap) (s.len + 1)
    (h ++ [h.elems s ++ x :: List.replicate (newCap - (s.len + 1)) ""],
      ⟨h.length, s.len + 1, newCap⟩)

/-! ## Extended specs, resource configs and the collaborators -/

/-- Modelled from the spec: the declaration of `ExtendedRouteGroupSpec` is not
in the source files; its fields are those of `GroupSpec` in §3. `IRules` is a Go
slice, `none` being the nil slice, which `reflect.DeepEqual` tells apart from an
empty one. -/
structure ExtendedRouteGroupSpec where
  VServerName : String
  VServerAddr : String
  SNAT : String
  WAF : String
  IRules : Option (List String)
deriving DecidableEq, Repr

/-- Modelled from the spec: one entry of the `extendedRouteGroupConfigs` list of
§6 (the declaration is not in the source files). -/
structure ExtendedRouteGroupConfig where
  Namespace : String
  AllowOverride : Bool
  ExtendedRouteGroupSpec : ExtendedRouteGroupSpec
deriving DecidableEq, Repr

/-- The parsed document, `extendedSpec`. -/
structure extendedSpec where
  ExtendedRouteGroupConfigs : List ExtendedRouteGroupConfig
deriving DecidableEq, Repr

/-- The per-namespace entry of the extended-spec store, as the source writes
its fields (`local_` is the field `local`). Decidable equality on it is
`reflect.DeepEqual`. -/
structure extendedParsedSpec where
  override : Bool
  local_ : Option ExtendedRouteGroupSpec
  global : Option ExtendedRouteGroupSpec
deriving DecidableEq, Repr

/-- The type `extendedSpecMap`. -/
abbrev extendedSpecMap := List (String × extendedParsedSpec)

/-- Modelled from the spec: `Pool` of §3, with the fields the source sets. -/
structure Pool where
  Name : String
  Partition : String
  ServiceName : String
  ServicePort : Int
  NodeMemberLabel : String
  Members : List String
deriving DecidableEq, Repr

/-- Modelled from the spec: `Rule` of §3. -/
structure Rule where
  Name : String
  FullURI : String
  Pool : String
  Ordinal : Nat
deriving DecidableEq, Repr

/-- The `Virtual` part of a resource config: the fields the source sets. -/
structure Virtual where
  Name : String
  Partition : String
  Enabled : Bool
  Destination : String
  SNAT : String
  WAF : String
  IRules : Option (List String)
deriving DecidableEq, Repr

/-- The `MetaData` part of a resource config. -/
structure MetaData where
  ResourceType : String
  Protocol : String
  baseResources : List (String × String)
  hosts : List String
deriving DecidableEq, Repr

/-- Modelled from the spec: `VirtualServerConfig` of §3 (`ResourceConfig` in the
source, declared outside the source files), with the fields `processRoutes`
and its helpers touch. -/
structure ResourceConfig where
  MetaData : MetaData
  Virtual : Virtual
  Pools : List Pool
  Policies : List (String × List Rule)
  IntDgMap : List (String × String)
  IRulesMap : List (String × String)
  customProfiles : List (String × String)
deriving DecidableEq, Repr

/-- The zero value `&ResourceConfig{}`. -/
def ResourceConfig.zero : ResourceConfig :=
  { MetaData := ⟨"", "", [], []⟩
    Virtual := ⟨"", "", false, "", "", "", none⟩
    Pools := []
    Policies := []
    IntDgMap := []
    IRulesMap := []
    customProfiles := [] }

/-- The type `ResourceMap`: virtual server name to config. -/
abbrev ResourceMap := List (String × ResourceConfig)

/-- Modelled from the spec: the shared resource store of §3, a mapping from
`(partition, vsName)` to the published config. -/
abbrev ResourceStore := String → String → Option ResourceConfig

/-- The route informer of a namespace: the listing of all routes and the
lookup by index, which can fail. -/
structure NRInformer where
  ByIndex : String → String → Option (List Route)
  Listing : List Route

/-- What the worker takes from outside the source files: constants, library
functions and the collaborators of §1, each a function of its arguments. -/
structure Env where
  ports : Ports
  DEFAULT_SNAT : String
  NodePort : String
  formatCustomVirtualServerName : String → Nat → String
  formatPoolName : String → String → Int → String → String
  formatPolicyName : String → String → String → String
  formatVirtualServerRuleName : String → String → String → String → String
  createRule : String → String → String → String → Option Rule
  SetVirtualAddress : Virtual → String → Nat → Virtual
  AddRuleToPolicy : ResourceConfig → String → String → List Rule → ResourceConfig
  getNamespacedNativeInformer : String → Option NRInformer
  getNamespacedEssentialInformer : String → Bool
  GetServicePort : String → String → String → Option Int
  handleRouteTLS : ResourceConfig → Route → ExtendedRouteGroupSpec → Int → ResourceConfig × Bool
  updatePoolMembersForNodePort : ResourceConfig → String → ResourceConfig
  updatePoolMembersForCluster : ResourceConfig → String → ResourceConfig
  sortSlice : (Route → Route → Bool) → List Route → List Route
  sortRules : List Rule → List Rule
  UnmarshalStrict : String → Option extendedSpec
  mapRange : List String → List String
  growCap : Nat → Nat

/-- The state of the controller that the two handlers read and write. -/
structure Controller where
  extdSpecMap : extendedSpecMap
  ltmConfig : ResourceStore
  initState : Bool
  routeSpecCMKey : String
  PoolMemberType : String

/-- Modelled from the spec: `getExtendedRouteSpec` is not in the source files;
by §3 the effective spec is `local` if override is allowed and `local` is
present, else `global`, and a namespace without an entry has none. -/
def getExtendedRouteSpec (m : extendedSpecMap) (routeGroup : String) :
    Option ExtendedRouteGroupSpec :=
  match m.lookup routeGroup with
  | none => none
  | some extdSpec =>
    if extdSpec.override && extdSpec.local_.isSome then extdSpec.local_ else extdSpec.global

/-- Modelled from the spec: the lookup of a virtual server in the store. -/
def getVirtualServer (rs : ResourceStore) (partition rsName : String) : Option ResourceConfig :=
  rs partition rsName

/-- Modelled from the spec: the removal of a virtual server from the store. -/
def deleteVirtualServer (rs : ResourceStore) (partition rsName : String) : ResourceStore :=
  fun p n => if p = partition ∧ n = rsName then none else rs p n

/-- The assignment `rsMap[name] = rscfg` on the partition's map obtained from
`getPartitionResourceMap`. -/
def setVirtualServer (rs : ResourceStore) (partition rsName : String) (cfg : ResourceConfig) :
    ResourceStore :=
  fun p n => if p = partition ∧ n = rsName then some cfg else rs p n

/-! ## The route-group synthesiser -/

/-- The routes of a namespace in the order `sort.Slice` leaves them; nil (the
empty list) when the informer is missing or the index lookup fails. -/
def getOrderedRoutes (env : Env) (namespace_ : String) : List Route :=
  match env.getNamespacedNativeInformer namespace_ with
  | none => []
  | some nrInf =>
    if namespace_ == "" then
      env.sortSlice routeLess nrInf.Listing
    else
      match nrInf.ByIndex "namespace" namespace_ with
      | none => []
      | some resources => env.sortSlice routeLess resources

def getGroupedRoutes (env : Env) (routeGroup : String) : List Route :=
  dedupRoutes (getOrderedRoutes env routeGroup)

def frameRouteVSName (env : Env) (routeGroup : String) (extdSpec : ExtendedRouteGroupSpec)
    (ps : portStruct) : String :=
  if extdSpec.VServerName != "" then
    env.formatCustomVirtualServerName extdSpec.VServerName ps.port
  else
    env.formatCustomVirtualServerName ("routes_" ++ routeGroup) ps.port

/-- The source returns an error value that is always nil. -/
def handleRouteGroupExtendedSpec (env : Env) (rsCfg : ResourceConfig)
    (extdSpec : ExtendedRouteGroupSpec) : Except String ResourceConfig :=
  let snat := if extdSpec.SNAT == "" then env.DEFAULT_SNAT else extdSpec.SNAT
  .ok { rsCfg with
    Virtual := { rsCfg.Virtual with SNAT := snat, WAF := extdSpec.WAF, IRules := extdSpec.IRules } }

/-- The target port of a route, or the error. -/
def getServicePort (env : Env) (route : Route) : Except String Int :=
  if !env.getNamespacedEssentialInformer route.Namespace then
    .error ("Informer not found for namespace: " ++ route.Namespace)
  else
    match route.Port with
    | some p =>
      if p.StrVal == "" then .ok p.IntVal
      else
        match env.GetServicePort route.Namespace route.ToName p.StrVal with
        | some port => .ok port
        | none => .error ("Error while processing port for route " ++ route.Name)
    | none =>
      match env.GetServicePort route.Namespace route.ToName "" with
      | some port => .ok port
      | none => .error ("Error while processing port for route " ++ route.Name)

/-- The closure `sortrules` of `prepareRouteLTMRules`: the rules of the map `r`
are appended to `rls`, then every rule of `rls` is numbered from `ordinal`. -/
def sortrules (r : List (String × Rule)) (rls : List Rule) (ordinal : Nat) : List Rule :=
  (rls ++ r.map Prod.snd).enum.map (fun iv => { iv.2 with Ordinal := ordinal + iv.1 })

/-- The value of the constant `HTTPRequest`. -/
def HTTPRequest : String := "HTTP_REQUEST"

/-- The rules of one route, `none` for the nil result. The two `sortrules`
tasks of the source run concurrently on disjoint accumulators and are joined
before `rls` and `w` are read, so running one after the other gives the same
value. -/
def prepareRouteLTMRules (env : Env) (route : Route) (routeGroup poolName : String) :
    Option (List Rule) :=
  let uri := route.Host ++ route.Path
  let path := route.Path
  let ruleName := env.formatVirtualServerRuleName route.Host routeGroup path poolName
  match env.createRule uri poolName ruleName HTTPRequest with
  | none => none
  | some rl =>
    let isWildcard := ("*.".toList).isPrefixOf uri.toList
    let wildcards : List (String × Rule) := if isWildcard then [(uri, rl)] else []
    let rlMap : List (String × Rule) := if isWildcard then [] else [(uri, rl)]
    let rls := sortrules rlMap [] 0
    let w := sortrules wildcards [] rlMap.length
    some (env.sortRules (rls ++ w))

/-- The config after the route's host, pool and rules have been added, or the
error; on the error the source abandons the config it was building. -/
def prepareResourceConfigFromRoute (env : Env) (rsCfg : ResourceConfig) (route : Route)
    (routeGroup : String) (servicePort : Int) : Except String ResourceConfig :=
  let rsCfg := { rsCfg with
    MetaData := { rsCfg.MetaData with hosts := rsCfg.MetaData.hosts ++ [route.Host] } }
  let pool : Pool :=
    { Name := env.formatPoolName route.Namespace route.ToName servicePort ""
      Partition := rsCfg.Virtual.Partition
      ServiceName := route.ToName
      ServicePort := servicePort
      NodeMemberLabel := ""
      Members := [] }
  let rsCfg := { rsCfg with Pools := rsCfg.Pools ++ [pool] }
  match prepareRouteLTMRules env route routeGroup pool.Name with
  | none => .error "failed to create LTM Rules"
  | some rules =>
    let policyName := env.formatPolicyName route.Host routeGroup rsCfg.Virtual.Name
    .ok (env.AddRuleToPolicy rsCfg policyName routeGroup rules)

/-- The value of the resource kind constant `Route`. -/
def RouteKind : String := "Route"

/-- The value of the resource type constant `VirtualServer`. -/
def VirtualServer : String := "VirtualServer"

/-- The body of `for _, rt := range routes` in `processRoutes`; `none` is the
exit with `processingError` set. -/
def routeLoop (env : Env) (extdSpec : ExtendedRouteGroupSpec) (routeGroup : String) :
    List Route → ResourceConfig → Option ResourceConfig
  | [], rsCfg => some rsCfg
  | rt :: rest, rsCfg =>
    let rsCfg := { rsCfg with
      MetaData := { rsCfg.MetaData with
        baseResources :=
          mapSet rsCfg.MetaData.baseResources (rt.Namespace ++ "/" ++ rt.Name) RouteKind } }
    match getServicePort env rt with
    | .error _ => none
    | .ok servicePort =>
      match prepareResourceConfigFromRoute env rsCfg rt routeGroup servicePort with
      | .error _ => none
      | .ok rsCfg =>
        if isSecureRoute rt then
          match env.handleRouteTLS rsCfg rt extdSpec servicePort with
          | (rsCfg, true) => routeLoop env extdSpec routeGroup rest rsCfg
          | (_, false) => none
        else
          routeLoop env extdSpec routeGroup rest rsCfg

/-- The config `processRoutes` sets up for a port before it visits the routes. -/
def freshConfig (env : Env) (routeGroup rsName : String) (extdSpec : ExtendedRouteGroupSpec)
    (ps : portStruct) : ResourceConfig :=
  let rsCfg := ResourceConfig.zero
  let rsCfg := { rsCfg with Virtual := { rsCfg.Virtual with Partition := routeGroup } }
  let rsCfg := { rsCfg with MetaData := { rsCfg.MetaData with ResourceType := VirtualServer } }
  let rsCfg := { rsCfg with Virtual := { rsCfg.Virtual with Enabled := true } }
  let rsCfg := { rsCfg with Virtual := { rsCfg.Virtual with Name := rsName } }
  let rsCfg := { rsCfg with MetaData := { rsCfg.MetaData with Protocol := ps.protocol } }
  { rsCfg with Virtual := env.SetVirtualAddress rsCfg.Virtual extdSpec.VServerAddr ps.port }

/-- The work of `processRoutes` on one port that is not skipped: the finished
config, or `none` when `processingError` was set. -/
def buildConfig (env : Env) (poolMemberType routeGroup : String)
    (extdSpec : ExtendedRouteGroupSpec) (routes : List Route) (ps : portStruct) :
    Option ResourceConfig :=
  let rsName := frameRouteVSName env routeGroup extdSpec ps
  match handleRouteGroupExtendedSpec env (freshConfig env routeGroup rsName extdSpec ps)
      extdSpec with
  | .error _ => none
  | .ok rsCfg =>
    match routeLoop env extdSpec routeGroup routes rsCfg with
    | none => none
    | some rsCfg =>
      if poolMemberType == env.NodePort then
        some (env.updatePoolMembersForNodePort rsCfg routeGroup)
      else
        some (env.updatePoolMembersForCluster rsCfg routeGroup)

/-- The state of the port loop of `processRoutes`: the shared store, the
temporary map `vsMap` and the flag `processingError`. -/
structure PortLoopState where
  store : ResourceStore
  vsMap : ResourceMap
  processingError : Bool

/-- The loop `for _, portStruct := range portStructs` of `processRoutes`. -/
def portLoop (env : Env) (poolMemberType routeGroup : String)
    (extdSpec : ExtendedRouteGroupSpec) (routes : List Route) :
    List portStruct → PortLoopState → PortLoopState
  | [], st => st
  | ps :: rest, st =>
    let rsName := frameRouteVSName env routeGroup extdSpec ps
    if skipsPort routes ps then
      portLoop env poolMemberType routeGroup extdSpec routes rest
        { st with store := deleteVirtualServer st.store routeGroup rsName }
    else
      match buildConfig env poolMemberType routeGroup extdSpec routes ps with
      | none => { st with processingError := true }
      | some rsCfg =>
        portLoop env poolMemberType routeGroup extdSpec routes rest
          { st with vsMap := mapSet st.vsMap rsName rsCfg }

/-- The loop that deletes the virtual servers of the two basic ports. -/
def deleteLoop (env : Env) (routeGroup : String) (extdSpec : ExtendedRouteGroupSpec) :
    List portStruct → ResourceStore → ResourceStore
  | [], rs => rs
  | ps :: rest, rs =>
    let rsName := frameRouteVSName env routeGroup extdSpec ps
    if (getVirtualServer rs routeGroup rsName).isSome then
      deleteLoop env routeGroup extdSpec rest (deleteVirtualServer rs routeGroup rsName)
    else
      deleteLoop env routeGroup extdSpec rest rs

/-- The loop that publishes `vsMap` into the partition of the route group. The
keys of `vsMap` are distinct, so the order of the visits does not show in the
store. -/
def publish (routeGroup : String) : ResourceMap → ResourceStore → ResourceStore
  | [], rs => rs
  | (name, rscfg) :: rest, rs => publish routeGroup rest (setVirtualServer rs routeGroup name rscfg)

/-- The handler `processRoutes`: the error it returns and the controller it
leaves. -/
def processRoutes (env : Env) (ctlr : Controller) (routeGroup : String) (triggerDelete : Bool) :
    Option String × Controller :=
  match getExtendedRouteSpec ctlr.extdSpecMap routeGroup with
  | none =>
    (some ("extended Route Spec not available for RouteGroup/Namespace: " ++ routeGroup), ctlr)
  | some extdSpec =>
    let routes := getGroupedRoutes env routeGroup
    if triggerDelete || routes.length == 0 then
      (none, { ctlr with
        ltmConfig := deleteLoop env routeGroup extdSpec (getBasicVirtualPorts env.ports)
          ctlr.ltmConfig })
    else
      let portStructs := getVirtualPortsForRoutes env.ports routes
      let st := portLoop env ctlr.PoolMemberType routeGroup extdSpec routes portStructs
        ⟨ctlr.ltmConfig, [], false⟩
      if !st.processingError then
        (none, { ctlr with ltmConfig := publish routeGroup st.vsMap st.store })
      else
        (none, { ctlr with ltmConfig := st.store })

/-! ## The extended-spec reconciler -/

/-- The fields of `v1.ConfigMap` that `processConfigMap` reads. -/
structure ConfigMap where
  Namespace : String
  Name : String
  Data : List (String × String)
deriving DecidableEq, Repr

def isGlobalExtendedRouteSpec (ctlr : Controller) (cm : ConfigMap) : Bool :=
  let cmKey := cm.Namespace ++ "/" ++ cm.Name
  if cmKey == ctlr.routeSpecCMKey then true else false

/-- The controller together with the calls of `processRoutes` made so far, each
with its route group and its `triggerDelete` argument. -/
structure Run where
  ctlr : Controller
  calls : List (String × Bool)

/-- A call of `processRoutes` from `processConfigMap`: the call is recorded and
the controller it leaves is kept. -/
def Run.processRoutes (env : Env) (r : Run) (ns : String) (triggerDelete : Bool) : Run :=
  ⟨(Ctlr.processRoutes env r.ctlr ns triggerDelete).2, r.calls ++ [(ns, triggerDelete)]⟩

/-- The entries of a Go map in the order `range` visits them. -/
def rangeMap {β : Type} (env : Env) (m : List (String × β)) : List (String × β) :=
  (env.mapRange (m.map Prod.fst)).filterMap (fun k => (m.lookup k).map (fun v => (k, v)))

/-- The loop that fills `newExtdSpecMap` from the entries of the global
document. -/
def fillNewExtdSpecMap : List ExtendedRouteGroupConfig → extendedSpecMap → extendedSpecMap
  | [], m => m
  | ergc :: rest, m =>
    fillNewExtdSpecMap rest
      (mapSet m ergc.Namespace
        { override := ergc.AllowOverride, local_ := none, global := some ergc.ExtendedRouteGroupSpec })

/-- The four slice variables of the diff and the arrays behind them. -/
structure DiffState where
  heap : Heap
  deletedSpecs : Slice
  modifiedSpecs : Slice
  updatedSpecs : Slice
  createdSpecs : Slice
deriving DecidableEq, Repr

def DiffState.init : DiffState := ⟨[], Slice.nil, Slice.nil, Slice.nil, Slice.nil⟩

/-- The loop `for ns := range newExtdSpecMap` of the delete event. -/
def diffDeleteAll (env : Env) : List (String × extendedParsedSpec) → DiffState → DiffState
  | [], st => st
  | (ns, _) :: rest, st =>
    let (h, s) := goAppend env.growCap st.heap st.deletedSpecs ns
    diffDeleteAll env rest { st with heap := h, deletedSpecs := s }

/-- The loop `for ns, spec := range ctlr.resources.extdSpecMap` of the diff,
over the entries in the order of the visit; `none` is the panic of reading the
`global` of a spec that has none. -/
def diffStored (env : Env) (newExtdSpecMap : extendedSpecMap) :
    List (String × extendedParsedSpec) → DiffState → Option DiffState
  | [], st => some st
  | (ns, spec) :: rest, st =>
    match newExtdSpecMap.lookup ns with
    | none =>
      let (h, s) := goAppend env.growCap st.heap st.deletedSpecs ns
      diffStored env newExtdSpecMap rest { st with heap := h, deletedSpecs := s }
    | some newSpec =>
      if spec ≠ newSpec then
        match spec.global, newSpec.global with
        | some g, some g' =>
          if g.VServerName != g'.VServerName || spec.override != newSpec.override then
            let (h, s) := goAppend env.growCap st.heap st.deletedSpecs ns
            diffStored env newExtdSpecMap rest { st with heap := h, modifiedSpecs := s }
          else
            let (h, s) := goAppend env.growCap st.heap st.modifiedSpecs ns
            diffStored env newExtdSpecMap rest { st with heap := h, updatedSpecs := s }
        | _, _ => none
      else
        diffStored env newExtdSpecMap rest st

/-- The loop `for ns, _ := range newExtdSpecMap` that collects the created
namespaces. -/
def diffCreated (env : Env) (stored : extendedSpecMap) :
    List (String × extendedParsedSpec) → DiffState → DiffState
  | [], st => st
  | (ns, _) :: rest, st =>
    match stored.lookup ns with
    | none =>
      let (h, s) := goAppend env.growCap st.heap st.createdSpecs ns
      diffCreated env stored rest { st with heap := h, createdSpecs := s }
    | some _ => diffCreated env stored rest st

/-- The four lists as they stand when the diff is done. -/
structure SpecLists where
  deletedSpecs : List String
  modifiedSpecs : List String
  updatedSpecs : List String
  createdSpecs : List String
deriving DecidableEq, Repr

def DiffState.lists (st : DiffState) : SpecLists :=
  ⟨st.heap.elems st.deletedSpecs, st.heap.elems st.modifiedSpecs,
    st.heap.elems st.updatedSpecs, st.heap.elems st.createdSpecs⟩

/-- The diff of `processConfigMap` for a global document after the bulk load:
the four namespace lists, or `none` for the panic. -/
def computeSpecLists (env : Env) (stored newExtdSpecMap : extendedSpecMap) (isDelete : Bool) :
    Option SpecLists :=
  if isDelete then
    some (diffDeleteAll env (rangeMap env newExtdSpecMap) DiffState.init).lists
  else
    match diffStored env newExtdSpecMap (rangeMap env stored) DiffState.init with
    | none => none
    | some st => some (diffCreated env stored (rangeMap env newExtdSpecMap) st).lists

/-- The loop over `deletedSpecs`; `none` is the panic of reading a field of an
absent store entry. -/
def applyDeleted (env : Env) : List String → Run → Option Run
  | [], r => some r
  | ns :: rest, r =>
    let r := r.processRoutes env ns true
    match r.ctlr.extdSpecMap.lookup ns with
    | none => none
    | some spec =>
      if spec.local_.isNone then
        applyDeleted env rest
          { r with ctlr := { r.ctlr with extdSpecMap := mapDelete r.ctlr.extdSpecMap ns } }
      else
        applyDeleted env rest
          { r with ctlr := { r.ctlr with
              extdSpecMap :=
                mapSet r.ctlr.extdSpecMap ns { spec with global := none, override := false } } }

/-- The two assignments that copy `override` and `global` of the new entry
into the stored entry; `none` when either entry is absent. -/
def copyGlobal (m newExtdSpecMap : extendedSpecMap) (ns : String) : Option extendedSpecMap :=
  match m.lookup ns, newExtdSpecMap.lookup ns with
  | some spec, some newSpec =>
    some (mapSet m ns { spec with override := newSpec.override, global := newSpec.global })
  | _, _ => none

/-- The loop over `modifiedSpecs`. -/
def applyModified (env : Env) (newExtdSpecMap : extendedSpecMap) : List String → Run → Option Run
  | [], r => some r
  | ns :: rest, r =>
    let r := r.processRoutes env ns true
    match copyGlobal r.ctlr.extdSpecMap newExtdSpecMap ns with
    | none => none
    | some m =>
      applyModified env newExtdSpecMap rest
        (Run.processRoutes env { r with ctlr := { r.ctlr with extdSpecMap := m } } ns false)

/-- The loop over `updatedSpecs`. -/
def applyUpdated (env : Env) (newExtdSpecMap : extendedSpecMap) : List String → Run → Option Run
  | [], r => some r
  | ns :: rest, r =>
    match copyGlobal r.ctlr.extdSpecMap newExtdSpecMap ns with
    | none => none
    | some m =>
      applyUpdated env newExtdSpecMap rest
        (Run.processRoutes env { r with ctlr := { r.ctlr with extdSpecMap := m } } ns false)

/-- The loop over `createdSpecs`: the stored entry is first set to the zero
`extendedParsedSpec`. -/
def applyCreated (env : Env) (newExtdSpecMap : extendedSpecMap) : List String → Run → Option Run
  | [], r => some r
  | ns :: rest, r =>
    match copyGlobal (mapSet r.ctlr.extdSpecMap ns ⟨false, none, none⟩) newExtdSpecMap ns with
    | none => none
    | some m =>
      applyCreated env newExtdSpecMap rest
        (Run.processRoutes env { r with ctlr := { r.ctlr with extdSpecMap := m } } ns false)

/-- What a call of `processConfigMap` that returns leaves behind: the error and
the boolean it returns, the controller, and its calls of `processRoutes`. -/
structure CMResult where
  err : Option String
  ok : Bool
  run : Run

/-- The assignment `spec.local = v` through the pointer stored under `ns`. -/
def setLocal (r : Run) (ns : String) (spec : extendedParsedSpec)
    (v : Option ExtendedRouteGroupSpec) : Run :=
  { r with ctlr := { r.ctlr with
      extdSpecMap := mapSet r.ctlr.extdSpecMap ns { spec with local_ := v } } }

/-- The branch of `processConfigMap` for a local ConfigMap whose document has
the first entry `ergc`. -/
def processLocal (env : Env) (r : Run) (cm : ConfigMap) (isDelete : Bool)
    (ergc : ExtendedRouteGroupConfig) : CMResult :=
  if ergc.Namespace != cm.Namespace then
    ⟨some ("Invalid Extended Route Spec Block in configmap: " ++ cm.Namespace ++ "/" ++ cm.Name),
      true, r⟩
  else
    match r.ctlr.extdSpecMap.lookup ergc.Namespace with
    | some spec =>
      if isDelete then
        if !spec.override then
          ⟨none, true, setLocal r ergc.Namespace spec none⟩
        else
          let r := r.processRoutes env ergc.Namespace true
          let r := setLocal r ergc.Namespace spec none
          ⟨none, true, r.processRoutes env ergc.Namespace false⟩
      else
        match spec.global with
        | none => ⟨none, true, setLocal r ergc.Namespace spec (some ergc.ExtendedRouteGroupSpec)⟩
        | some g =>
          if !spec.override then
            ⟨none, true, setLocal r ergc.Namespace spec (some ergc.ExtendedRouteGroupSpec)⟩
          else
            match spec.local_ with
            | none =>
              if g ≠ ergc.ExtendedRouteGroupSpec then
                let r :=
                  if g.VServerName != ergc.ExtendedRouteGroupSpec.VServerName then
                    r.processRoutes env ergc.Namespace true
                  else r
                let r := setLocal r ergc.Namespace spec (some ergc.ExtendedRouteGroupSpec)
                ⟨none, true, r.processRoutes env ergc.Namespace false⟩
              else
                ⟨none, true, r⟩
            | some l =>
              if l ≠ ergc.ExtendedRouteGroupSpec then
                let r :=
                  if l.VServerName != ergc.ExtendedRouteGroupSpec.VServerName then
                    r.processRoutes env ergc.Namespace true
                  else r
                let r := setLocal r ergc.Namespace spec (some ergc.ExtendedRouteGroupSpec)
                ⟨none, true, r.processRoutes env ergc.Namespace false⟩
              else
                ⟨none, true, r⟩
    | none =>
      ⟨none, false,
        { r with ctlr := { r.ctlr with
            extdSpecMap := mapSet r.ctlr.extdSpecMap ergc.Namespace
              { override := false, local_ := some ergc.ExtendedRouteGroupSpec, global := none } } }⟩

/-- The branch of `processConfigMap` for the global ConfigMap; `none` is a
panic. -/
def processGlobal (env : Env) (r : Run) (es : extendedSpec) (isDelete : Bool) : Option CMResult :=
  let newExtdSpecMap := fillNewExtdSpecMap es.ExtendedRouteGroupConfigs []
  if r.ctlr.initState then
    some ⟨none, true, { r with ctlr := { r.ctlr with extdSpecMap := newExtdSpecMap } }⟩
  else
    match computeSpecLists env r.ctlr.extdSpecMap newExtdSpecMap isDelete with
    | none => none
    | some l =>
      match applyDeleted env l.deletedSpecs r with
      | none => none
      | some r =>
        match applyModified env newExtdSpecMap l.modifiedSpecs r with
        | none => none
        | some r =>
          match applyUpdated env newExtdSpecMap l.updatedSpecs r with
          | none => none
          | some r =>
            match applyCreated env newExtdSpecMap l.createdSpecs r with
            | none => none
            | some r => some ⟨none, true, r⟩

/-- The handler `processConfigMap`; `none` is a panic (a nil pointer
dereference), `some` what the call returns and leaves. -/
def processConfigMap (env : Env) (ctlr : Controller) (cm : ConfigMap) (isDelete : Bool) :
    Option CMResult :=
  let ersData := cm.Data
  match env.UnmarshalStrict ((ersData.lookup "extendedSpec").getD "") with
  | none =>
    some ⟨some ("invalid extended route spec in configmap: " ++ cm.Namespace ++ "/" ++ cm.Name),
      false, ⟨ctlr, []⟩⟩
  | some es =>
    if isGlobalExtendedRouteSpec ctlr cm then
      processGlobal env ⟨ctlr, []⟩ es isDelete
    else
      match es.ExtendedRouteGroupConfigs with
      | ergc :: _ => some (processLocal env ⟨ctlr, []⟩ cm isDelete ergc)
      | [] => some ⟨none, true, ⟨ctlr, []⟩⟩

/-! ## Well-formed routes and example inputs -/

/-- A route as the API server admits it: the host has no slash, and the path is
empty or begins with a slash. -/
def wellFormedRoute (r : Route) : Prop :=
  '/' ∉ r.Host.toList ∧ (r.Path = "" ∨ r.Path.toList.head? = some '/')

/-- A route with the given host, path, TLS block and creation time. -/
def mkRoute (host path : String) (tls : Option TLSConfig) (created : Int) : Route :=
  { Namespace := "ns1", Name := host ++ path, Host := host, Path := path, ToName := "svc",
    Port := none, TLS := tls, CreationTimestamp := created }

/-- A store transformer that sets a fixed set of entries to fixed values and
leaves every other entry as it finds it. -/
def IsOverwrite (f : ResourceStore → ResourceStore) : Prop :=
  ∃ (T : String → String → Bool) (V : String → String → Option ResourceConfig),
    ∀ s p n, f s p n = if T p n = true then V p n else s p n

/-- Go's choice of a new capacity for small slices: one for the nil slice,
otherwise twice the old one. -/
def doubleCap (c : Nat) : Nat := if c = 0 then 1 else 2 * c

/-- An environment for the examples: the informers of every namespace hold
`routes`, every named or default service port resolves to `svcPort` (or fails
when it is `none`), TLS attachment succeeds, `range` visits a map in the order
of its keys as given, and the formatting helpers join their arguments. -/
def exampleEnv (routes : List Route) (svcPort : Option Int) : Env :=
  { ports := ⟨80, 443⟩
    DEFAULT_SNAT := "auto"
    NodePort := "nodeport"
    formatCustomVirtualServerName := fun name port => name ++ "_" ++ toString port
    formatPoolName := fun ns svc port _ => svc ++ "_" ++ toString port ++ "_" ++ ns
    formatPolicyName := fun _ rg vs => vs ++ "_" ++ rg ++ "_policy"
    formatVirtualServerRuleName := fun host _ path pool => host ++ path ++ "_" ++ pool
    createRule := fun uri pool name _ => some ⟨name, uri, pool, 0⟩
    SetVirtualAddress := fun v addr port => { v with Destination := addr ++ ":" ++ toString port }
    AddRuleToPolicy := fun cfg policy _ rules =>
      { cfg with Policies := cfg.Policies ++ [(policy, rules)] }
    getNamespacedNativeInformer := fun _ => some ⟨fun _ _ => some routes, routes⟩
    getNamespacedEssentialInformer := fun _ => true
    GetServicePort := fun _ _ _ => svcPort
    handleRouteTLS := fun cfg rt _ _ =>
      ({ cfg with customProfiles := cfg.customProfiles ++ [(rt.Name, "clientssl")] }, true)
    updatePoolMembersForNodePort := fun cfg _ => cfg
    updatePoolMembersForCluster := fun cfg _ => cfg
    sortSlice := fun less l => l.insertionSort (fun a b => less a b = true)
    sortRules := fun l => l
    UnmarshalStrict := fun _ => none
    mapRange := fun keys => keys
    growCap := doubleCap }

/-- A published config that carries only its name. -/
def namedConfig (name : String) : ResourceConfig :=
  { ResourceConfig.zero with Virtual := { ResourceConfig.zero.Virtual with Name := name } }

/-- A spec with the given virtual server name and WAF policy. -/
def mkSpec (vsName waf : String) : ExtendedRouteGroupSpec :=
  { VServerName := vsName, VServerAddr := "10.0.0.1", SNAT := "", WAF := waf, IRules := none }

/-- A controller past the bulk load with the given extended-spec store and
resource store. -/
def mkController (m : extendedSpecMap) (rs : ResourceStore) : Controller :=
  { extdSpecMap := m, ltmConfig := rs, initState := false, routeSpecCMKey := "kube-system/global-cm",
    PoolMemberType := "cluster" }

/-- The store that holds one config, under `(partition, name)`. -/
def singletonStore (partition name : String) : ResourceStore :=
  setVirtualServer (fun _ _ => none) partition name (namedConfig name)

/-- A secure route whose insecure edge termination policy is `None`. -/
def secureRoute : Route := mkRoute "b.com" "/" (some ⟨"None"⟩) 2

/-- A plain route. -/
def plainRoute : Route := mkRoute "a.com" "/" none 1

/-- A controller whose namespace `ns1` has the global spec named `vs` and whose
store holds the http virtual server `vs_80` of that group. -/
def exampleCtlr : Controller :=
  mkController [("ns1", ⟨false, none, some (mkSpec "vs" "")⟩)] (singletonStore "ns1" "vs_80")

/-- The environment `env` with a parser that reads every payload as `es`. -/
def withDoc (env : Env) (es : extendedSpec) : Env :=
  { env with UnmarshalStrict := fun _ => some es }

/-- The payload `processConfigMap` hands to the parser. -/
def payload (cm : ConfigMap) : String := (cm.Data.lookup "extendedSpec").getD ""

/-- The global ConfigMap of the example controllers. -/
def globalCM : ConfigMap := ⟨"kube-system", "global-cm", [("extendedSpec", "doc")]⟩

/-- A local ConfigMap in the namespace `ns`. -/
def localCM (ns : String) : ConfigMap := ⟨ns, "local-cm", [("extendedSpec", "doc")]⟩

/-- The environment `env` in which `range` visits the keys of a map in the
order `f` puts them. -/
def withRange (env : Env) (f : List String → List String) : Env :=
  { env with mapRange := f }

/-- A store entry with only a global half, named `vsName`, override not
allowed. -/
def globalOnly (vsName waf : String) : extendedParsedSpec :=
  ⟨false, none, some (mkSpec vsName waf)⟩

/-- A store with the namespaces `a`, `b` and `c`. -/
def storeABC : extendedSpecMap :=
  [("a", globalOnly "va" ""), ("b", globalOnly "vb" ""), ("c", globalOnly "vc" "")]

/-- A global document that drops `a`, renames the virtual server of `b` and
changes only the WAF policy of `c`. -/
def docDropRenameWaf : extendedSpec :=
  ⟨[⟨"b", false, mkSpec "vb2" ""⟩, ⟨"c", false, mkSpec "vc" "waf1"⟩]⟩

/-- A store with the namespaces `a` and `b`. -/
def storeAB : extendedSpecMap := [("a", globalOnly "va" ""), ("b", globalOnly "vb" "")]

/-- A global document that renames the virtual servers of both `a` and `b`. -/
def docRenameBoth : extendedSpec :=
  ⟨[⟨"a", false, mkSpec "va2" ""⟩, ⟨"b", false, mkSpec "vb2" ""⟩]⟩

/-- The environment `env` with a parser that reads the payloads listed in
`docs` as the documents beside them and rejects every other payload. -/
def withDocs (env : Env) (docs : List (String × extendedSpec)) : Env :=
  { env with UnmarshalStrict := fun s => docs.lookup s }

/-- A ConfigMap with the given namespace, name and `extendedSpec` payload. -/
def cmWith (ns name doc : String) : ConfigMap := ⟨ns, name, [("extendedSpec", doc)]⟩

/-- A controller whose namespace `ns1` has the global spec named `vs`, override
allowed and no local half. -/
def overrideCtlr : Controller :=
  mkController [("ns1", ⟨true, none, some (mkSpec "vs" "")⟩)] (fun _ _ => none)

/-- A parser for the examples of the global path: the payload `local-ns1` is a
local document for `ns1`, `global-ns1` a global document with the one namespace
`ns1`, and `global-b` a global document that names only `b`, with a renamed
virtual server. -/
def docsEnv : Env :=
  withDocs (exampleEnv [] none)
    [("local-ns1", ⟨[⟨"ns1", false, mkSpec "mine" ""⟩]⟩),
     ("global-ns1", ⟨[⟨"ns1", true, mkSpec "vs" ""⟩]⟩),
     ("global-b", ⟨[⟨"b", false, mkSpec "vb2" ""⟩]⟩)]

/-- A controller past the bulk load with an empty extended-spec store. -/
def emptyCtlr : Controller := mkController [] (fun _ _ => none)

/-- The fields of `v1.Service` that the dispatcher reads; `SpecType` is
`Spec.Type`. -/
structure Service where
  Namespace : String
  Name : String
  SpecType : String
deriving DecidableEq, Repr

/-- The value of `v1.ServiceTypeLoadBalancer`. -/
def ServiceTypeLoadBalancer : String := "LoadBalancer"

/-- The resource of a work item together with its kind: a route, a ConfigMap,
a service, an endpoints object (held by its name), a namespace (by its name),
or a resource of a kind the switch does not know. -/
inductive Resource where
  | route (rt : Route)
  | configMap (cm : ConfigMap)
  | service (svc : Service)
  | endpoints (ep : String)
  | ns (nsName : String)
  | other (kind : String)
deriving DecidableEq, Repr

/-- The work item `rqKey`. -/
structure rqKey where
  rsc : Resource
  rscDelete : Bool
deriving DecidableEq, Repr

/-- The calls the dispatcher makes on `nativeResourceQueue` that change it. -/
inductive QueueOp where
  | AddRateLimited (key : rqKey)
  | Forget (key : rqKey)
  | Done (key : rqKey)
deriving DecidableEq, Repr

/-- The state the dispatcher works on: the controller, the count of services
awaited in the bulk load, the namespace set, the calls made on the queue so far
and the number of configs posted to the agent. -/
structure Worker where
  ctlr : Controller
  initialSvcCount : Int
  namespaces : List String
  queueOps : List QueueOp
  posted : Nat

/-- What the dispatcher takes from outside the source files: the service and
endpoints handlers, the length the queue reports, and whether the store has
unflushed changes. The informers that namespace items start and stop are not
part of the state. -/
structure DispatchEnv where
  processService : Controller → Service → Option String → Bool → Controller
  processLBServices : Controller → Service → Bool → Option String × Controller
  getServiceForEndpoints : Controller → String → Option Service
  Len : List QueueOp → Nat
  isConfigUpdated : Controller → Bool

def getAffectedRouteGroups (svc : Service) : List String := [svc.Namespace]

/-- The loop of `updatePoolMembersForRoutes` over the basic ports; `copyConfig`
copies the config and `setResourceConfig`, whose error is dropped, stores it. -/
def poolMembersLoop (env : Env) (poolMemberType routeGroup : String)
    (extdSpec : ExtendedRouteGroupSpec) : List portStruct → ResourceStore → ResourceStore
  | [], rs => rs
  | ps :: rest, rs =>
    let rsName := frameRouteVSName env routeGroup extdSpec ps
    match getVirtualServer rs routeGroup rsName with
    | none => poolMembersLoop env poolMemberType routeGroup extdSpec rest rs
    | some rsCfg =>
      let freshRsCfg :=
        if poolMemberType == env.NodePort then env.updatePoolMembersForNodePort rsCfg routeGroup
        else env.updatePoolMembersForCluster rsCfg routeGroup
      poolMembersLoop env poolMemberType routeGroup extdSpec rest
        (setVirtualServer rs routeGroup rsName freshRsCfg)

def updatePoolMembersForRoutes (env : Env) (ctlr : Controller) (routeGroup : String) :
    Controller :=
  match getExtendedRouteSpec ctlr.extdSpecMap routeGroup with
  | none => ctlr
  | some extdSpec =>
    { ctlr with
      ltmConfig := poolMembersLoop env ctlr.PoolMemberType routeGroup extdSpec
        (getBasicVirtualPorts env.ports) ctlr.ltmConfig }

/-- The tail of the `Service` and `Endpoints` cases: the load balancer handler
for a service of that type, else the refresh of the pool members of the
affected route groups, which the `Service` case skips during the bulk load. The
result is `isRetryableError` and the controller. -/
def afterProcessService (env : Env) (d : DispatchEnv) (ctlr : Controller) (svc : Service)
    (rscDelete skipInInit : Bool) : Bool × Controller :=
  if svc.SpecType == ServiceTypeLoadBalancer then
    match d.processLBServices ctlr svc rscDelete with
    | (some _, ctlr) => (true, ctlr)
    | (none, ctlr) => (false, ctlr)
  else if skipInInit && ctlr.initState then
    (false, ctlr)
  else
    (false, (getAffectedRouteGroups svc).foldl (updatePoolMembersForRoutes env) ctlr)

/-- The `switch rKey.kind` of `processNativeResource`: `isRetryableError` and
the state after the handler, or `none` when the handler panics. -/
def dispatch (env : Env) (d : DispatchEnv) (w : Worker) (key : rqKey) : Option (Bool × Worker) :=
  match key.rsc with
  | .route rt =>
    match processRoutes env w.ctlr rt.Namespace false with
    | (some _, ctlr) => some (true, { w with ctlr := ctlr })
    | (none, ctlr) => some (false, { w with ctlr := ctlr })
  | .configMap cm =>
    match processConfigMap env w.ctlr cm key.rscDelete with
    | none => none
    | some r =>
      match r.err with
      | some _ => some (false, { w with ctlr := r.run.ctlr })
      | none => some (!r.ok, { w with ctlr := r.run.ctlr })
  | .service svc =>
    let ctlr := d.processService w.ctlr svc none key.rscDelete
    let res := afterProcessService env d ctlr svc key.rscDelete true
    some (res.1, { w with ctlr := res.2 })
  | .endpoints ep =>
    match d.getServiceForEndpoints w.ctlr ep with
    | none => some (false, w)
    | some svc =>
      let ctlr := d.processService w.ctlr svc (some ep) key.rscDelete
      let res := afterProcessService env d ctlr svc key.rscDelete false
      some (res.1, { w with ctlr := res.2 })
  | .ns nsName =>
    if key.rscDelete then
      some (false, { w with namespaces := w.namespaces.filter (fun n => n != nsName) })
    else
      some (false, { w with namespaces := nsName :: w.namespaces })
  | .other _ => some (false, w)

/-- Whether the kind of the item is `Namespace`. -/
def rqKey.isNamespace (key : rqKey) : Bool :=
  match key.rsc with
  | .ns _ => true
  | _ => false

/-- Whether the kind of the item is `Service`. -/
def rqKey.isService (key : rqKey) : Bool :=
  match key.rsc with
  | .service _ => true
  | _ => false

/-- The worker step `processNativeResource` for an item the queue has handed
out: the state it leaves, with the deferred `Done` last, or `none` when a
handler panics. -/
def processNativeResource (env : Env) (d : DispatchEnv) (w : Worker) (key : rqKey) :
    Option Worker :=
  if w.ctlr.initState && !key.isNamespace && !key.isService then
    some { w with queueOps := w.queueOps ++ [QueueOp.AddRateLimited key, QueueOp.Done key] }
  else
    let w :=
      if w.ctlr.initState && !key.isNamespace then
        let w := { w with initialSvcCount := w.initialSvcCount - 1 }
        if w.initialSvcCount ≤ 0 then { w with ctlr := { w.ctlr with initState := false } } else w
      else w
    match dispatch env d w key with
    | none => none
    | some (isRetryableError, w) =>
      let w :=
        if isRetryableError then { w with queueOps := w.queueOps ++ [QueueOp.AddRateLimited key] }
        else { w with queueOps := w.queueOps ++ [QueueOp.Forget key] }
      let w :=
        if d.Len w.queueOps == 0 && d.isConfigUpdated w.ctlr then
          { w with posted := w.posted + 1, ctlr := { w.ctlr with initState := false } }
        else w
      some { w with queueOps := w.queueOps ++ [QueueOp.Done key] }

/-- Collaborators of the dispatcher for the examples: the handlers leave the
controller as it is, the queue reports one waiting item and nothing is
unflushed. -/
def exampleDispatchEnv : DispatchEnv :=
  { processService := fun ctlr _ _ _ => ctlr
    processLBServices := fun ctlr _ _ => (none, ctlr)
    getServiceForEndpoints := fun _ _ => none
    Len := fun _ => 1
    isConfigUpdated := fun _ => false }

/-- A worker past the bulk load on the given controller, with nothing done on
the queue yet. -/
def mkWorker (ctlr : Controller) : Worker :=
  { ctlr := ctlr, initialSvcCount := 0, namespaces := [], queueOps := [], posted := 0 }

instance (r : Route) : Decidable (wellFormedRoute r) :=
  inferInstanceAs
    (Decidable ('/' ∉ r.Host.toList ∧ (r.Path = "" ∨ r.Path.toList.head? = some '/')))

/-- The pair by which the routes of a group are told apart. -/
def hostPath (r : Route) : String × String := (r.Host, r.Path)

/-- A controller whose namespace `ns1` has the global spec named `vs`, override
not allowed, and a stored local half named `mine`. -/
def latentCtlr : Controller :=
  mkController [("ns1", ⟨false, some (mkSpec "mine" ""), some (mkSpec "vs" "")⟩)]
    (fun _ _ => none)

/-! # Properties -/

/-! ## Deduplication (`getGroupedRoutes`) -/

theorem groupLoop_acc (l : List Route) (seen : List String) (acc : List Route) :
    groupLoop l seen acc = acc ++ groupLoop l seen [] := by
  induction l generalizing seen acc with
  | nil => simp [groupLoop]
  | cons r rest ih =>
    unfold groupLoop
    split
    · exact ih seen acc
    · rw [ih _ (acc ++ [r]), ih _ ([] ++ [r])]; simp

theorem groupLoop_cons (r : Route) (rest : List Route) (seen : List String) :
    groupLoop (r :: rest) seen [] =
      if hostPathKey r ∈ seen then groupLoop rest seen []
      else r :: groupLoop rest (hostPathKey r :: seen) [] := by
  rw [groupLoop]
  show (if seen.contains (hostPathKey r) = true then _ else _) = _
  by_cases h : hostPathKey r ∈ seen
  · have hc : seen.contains (hostPathKey r) = true := by simpa using h
    rw [if_pos hc, if_pos h]
  · have hc : ¬ seen.contains (hostPathKey r) = true := by simpa using h
    rw [if_neg hc, if_neg h, groupLoop_acc]
    rfl

theorem groupLoop_sublist (l : List Route) (seen : List String) :
    (groupLoop l seen []).Sublist l := by
  induction l generalizing seen with
  | nil => simp [groupLoop]
  | cons r rest ih =>
    rw [groupLoop_cons]
    split
    · exact (ih seen).cons r
    · exact (ih _).cons₂ r

theorem mem_groupLoop (l : List Route) (seen : List String) (x : Route)
    (h : x ∈ groupLoop l seen []) : x ∈ l ∧ hostPathKey x ∉ seen := by
  induction l generalizing seen with
  | nil => simp [groupLoop] at h
  | cons r rest ih =>
    rw [groupLoop_cons] at h
    split at h
    · exact ⟨List.mem_cons_of_mem _ (ih seen h).1, (ih seen h).2⟩
    · rename_i hr
      rcases List.mem_cons.1 h with rfl | h
      · exact ⟨List.mem_cons_self _ _, hr⟩
      · have := ih _ h
        exact ⟨List.mem_cons_of_mem _ this.1, fun hx => this.2 (List.mem_cons_of_mem _ hx)⟩

theorem groupLoop_keys_nodup (l : List Route) (seen : List String) :
    ((groupLoop l seen []).map hostPathKey).Nodup := by
  induction l generalizing seen with
  | nil => simp [groupLoop]
  | cons r rest ih =>
    rw [groupLoop_cons]
    split
    · exact ih seen
    · rw [List.map_cons, List.nodup_cons]
      refine ⟨?_, ih _⟩
      intro hmem
      obtain ⟨x, hx, hk⟩ := List.mem_map.1 hmem
      exact (mem_groupLoop _ _ x hx).2 (by rw [hk]; exact List.mem_cons_self _ _)

theorem groupLoop_find (l : List Route) (seen : List String) (k : String) :
    (groupLoop l seen []).find? (fun x => hostPathKey x == k) =
      if k ∈ seen then none else l.find? (fun x => hostPathKey x == k) := by
  induction l generalizing seen with
  | nil => simp [groupLoop]
  | cons r rest ih =>
    rw [groupLoop_cons]
    by_cases hr : hostPathKey r ∈ seen
    · rw [if_pos hr, ih]
      by_cases hk : k ∈ seen
      · simp [hk]
      · have : hostPathKey r ≠ k := fun e => hk (e ▸ hr)
        simp [hk, List.find?_cons, this]
    · rw [if_neg hr]
      by_cases hk : k ∈ seen
      · have hne : hostPathKey r ≠ k := fun e => hr (e ▸ hk)
        simp [hk, List.find?_cons, hne, ih]
      · by_cases e : hostPathKey r = k
        · simp [hk, List.find?_cons, e]
        · have : k ∉ hostPathKey r :: seen := by
            simp only [List.mem_cons, not_or]; exact ⟨fun h => e h.symm, hk⟩
          simp [hk, List.find?_cons, e, ih, this]

theorem groupLoop_snoc (pre : List Route) (r : Route) (seen : List String) :
    groupLoop (pre ++ [r]) seen [] =
      if hostPathKey r ∈ seen ∨ ∃ x ∈ pre, hostPathKey x = hostPathKey r then groupLoop pre seen []
      else groupLoop pre seen [] ++ [r] := by
  induction pre generalizing seen with
  | nil =>
    rw [List.nil_append, groupLoop_cons]
    by_cases h : hostPathKey r ∈ seen <;> simp [h, groupLoop]
  | cons a pre ih =>
    rw [List.cons_append, groupLoop_cons, groupLoop_cons, ih, ih]
    by_cases ha : hostPathKey a ∈ seen
    · have hc : (hostPathKey r ∈ seen ∨ ∃ x ∈ a :: pre, hostPathKey x = hostPathKey r) ↔
          (hostPathKey r ∈ seen ∨ ∃ x ∈ pre, hostPathKey x = hostPathKey r) := by
        constructor
        · rintro (h | ⟨x, hx, hk⟩)
          · exact Or.inl h
          · rcases List.mem_cons.1 hx with rfl | hx
            · exact Or.inl (hk ▸ ha)
            · exact Or.inr ⟨x, hx, hk⟩
        · rintro (h | ⟨x, hx, hk⟩)
          · exact Or.inl h
          · exact Or.inr ⟨x, List.mem_cons_of_mem _ hx, hk⟩
      rw [if_pos ha, if_pos ha, if_congr hc rfl rfl]
    · have hc : (hostPathKey r ∈ hostPathKey a :: seen ∨ ∃ x ∈ pre, hostPathKey x = hostPathKey r) ↔
          (hostPathKey r ∈ seen ∨ ∃ x ∈ a :: pre, hostPathKey x = hostPathKey r) := by
        constructor
        · rintro (h | ⟨x, hx, hk⟩)
          · rcases List.mem_cons.1 h with h | h
            · exact Or.inr ⟨a, List.mem_cons_self _ _, h.symm⟩
            · exact Or.inl h
          · exact Or.inr ⟨x, List.mem_cons_of_mem _ hx, hk⟩
        · rintro (h | ⟨x, hx, hk⟩)
          · exact Or.inl (List.mem_cons_of_mem _ h)
          · rcases List.mem_cons.1 hx with rfl | hx
            · exact Or.inl (hk ▸ List.mem_cons_self _ _)
            · exact Or.inr ⟨x, hx, hk⟩
      rw [if_neg ha, if_neg ha, if_congr hc rfl rfl]
      split <;> rfl

theorem mem_dedupRoutes_keys (l : List Route) (k : String) :
    k ∈ (dedupRoutes l).map hostPathKey ↔ k ∈ l.map hostPathKey := by
  constructor
  · intro h
    obtain ⟨x, hx, hk⟩ := List.mem_map.1 h
    exact List.mem_map.2 ⟨x, (mem_groupLoop l [] x hx).1, hk⟩
  · intro h
    obtain ⟨x, hx, hk⟩ := List.mem_map.1 h
    have hf := groupLoop_find l [] k
    rw [if_neg (List.not_mem_nil k)] at hf
    have hsome : (l.find? (fun y => hostPathKey y == k)).isSome := by
      rw [List.find?_isSome]
      exact ⟨x, hx, by simp [hk]⟩
    obtain ⟨y, hy⟩ := Option.isSome_iff_exists.1 hsome
    rw [hy] at hf
    have hmem : y ∈ groupLoop l [] [] := List.mem_of_find?_eq_some hf
    have hky : hostPathKey y = k := by
      have := List.find?_some hf
      simpa using this
    exact List.mem_map.2 ⟨y, hmem, hky⟩

theorem dedupRoutes_length (l : List Route) :
    (dedupRoutes l).length = (l.map hostPathKey).toFinset.card := by
  have hnd : ((dedupRoutes l).map hostPathKey).Nodup := groupLoop_keys_nodup l []
  have h1 : ((dedupRoutes l).map hostPathKey).toFinset = (l.map hostPathKey).toFinset := by
    ext k
    simp only [List.mem_toFinset]
    exact mem_dedupRoutes_keys l k
  rw [← h1, List.toFinset_card_of_nodup hnd, List.length_map]

theorem append_inj_of_slash (a b c d : List Char) (ha : '/' ∉ a) (hc : '/' ∉ c)
    (hb : b = [] ∨ b.head? = some '/') (hd : d = [] ∨ d.head? = some '/')
    (h : a ++ b = c ++ d) : a = c ∧ b = d := by
  induction a generalizing c with
  | nil =>
    cases c with
    | nil => exact ⟨rfl, by simpa using h⟩
    | cons x c =>
      exfalso
      rw [List.nil_append] at h
      rcases hb with hb | hb
      · rw [hb] at h; simp at h
      · rw [h] at hb
        simp at hb
        exact hc (hb ▸ List.mem_cons_self _ _)
  | cons x a ih =>
    cases c with
    | nil =>
      exfalso
      rw [List.nil_append] at h
      rcases hd with hd | hd
      · rw [hd] at h; simp at h
      · rw [← h] at hd
        simp at hd
        exact ha (hd ▸ List.mem_cons_self _ _)
    | cons y c =>
      simp only [List.cons_append, List.cons.injEq] at h
      have := ih c (fun hm => ha (List.mem_cons_of_mem _ hm))
        (fun hm => hc (List.mem_cons_of_mem _ hm)) h.2
      exact ⟨by rw [h.1, this.1], this.2⟩

theorem hostPathKey_inj (a b : Route) (ha : wellFormedRoute a) (hb : wellFormedRoute b) :
    hostPathKey a = hostPathKey b ↔ a.Host = b.Host ∧ a.Path = b.Path := by
  constructor
  · intro h
    have hl : a.Host.toList ++ a.Path.toList = b.Host.toList ++ b.Path.toList := by
      have := congrArg String.toList h
      simpa [hostPathKey, String.toList, String.data_append] using this
    have conv : ∀ p : String, (p = "" ∨ p.toList.head? = some '/') →
        (p.toList = [] ∨ p.toList.head? = some '/') := by
      intro p hp
      rcases hp with hp | hp
      · left; rw [hp]; rfl
      · exact Or.inr hp
    have := append_inj_of_slash _ _ _ _ ha.1 hb.1 (conv _ ha.2) (conv _ hb.2) hl
    exact ⟨String.ext this.1, String.ext this.2⟩
  · rintro ⟨h1, h2⟩
    simp [hostPathKey, h1, h2]

/-- Deduplication by key: `getGroupedRoutes` keeps, in the order of the input, the
first route of every distinct concatenation `host ++ path` and nothing else: the
result is a sub-list of the ordered routes, no two retained routes have the same
concatenation, for every key the retained route with that key is the first
route of the input with it, a route is discarded exactly when an earlier
retained route has the same concatenation, and the number of retained routes
is the number of distinct concatenations. Among routes whose host has no slash
and whose path is empty or begins with a slash, the same concatenation means
the same host and the same path. -/
theorem getGroupedRoutes_keeps_first_per_key (l : List Route) :
    (dedupRoutes l).Sublist l
    ∧ ((dedupRoutes l).map hostPathKey).Nodup
    ∧ (∀ k : String, (dedupRoutes l).find? (fun x => hostPathKey x == k)
          = l.find? (fun x => hostPathKey x == k))
    ∧ (∀ (pre : List Route) (r : Route), dedupRoutes (pre ++ [r]) =
          if ∃ x ∈ dedupRoutes pre, hostPathKey x = hostPathKey r then dedupRoutes pre
          else dedupRoutes pre ++ [r])
    ∧ (dedupRoutes l).length = (l.map hostPathKey).toFinset.card
    ∧ (∀ a b : Route, wellFormedRoute a → wellFormedRoute b →
          (hostPathKey a = hostPathKey b ↔ a.Host = b.Host ∧ a.Path = b.Path)) := by
  refine ⟨groupLoop_sublist l [], groupLoop_keys_nodup l [], ?_, ?_, dedupRoutes_length l,
    hostPathKey_inj⟩
  · intro k
    have := groupLoop_find l [] k
    rwa [if_neg (List.not_mem_nil k)] at this
  · intro pre r
    have h := groupLoop_snoc pre r []
    have hc : (hostPathKey r ∈ ([] : List String) ∨ ∃ x ∈ pre, hostPathKey x = hostPathKey r) ↔
        ∃ x ∈ dedupRoutes pre, hostPathKey x = hostPathKey r := by
      constructor
      · rintro (h | ⟨x, hx, hk⟩)
        · exact absurd h (List.not_mem_nil _)
        · have := (mem_dedupRoutes_keys pre (hostPathKey r)).2 (List.mem_map.2 ⟨x, hx, hk⟩)
          obtain ⟨y, hy, hyk⟩ := List.mem_map.1 this
          exact ⟨y, hy, hyk⟩
      · rintro ⟨x, hx, hk⟩
        exact Or.inr ⟨x, (mem_groupLoop pre [] x hx).1, hk⟩
    rw [if_congr hc rfl rfl] at h
    exact h

/-- Why the paths must be rooted: of the ordered routes `("example.co", "m")` and
`("example.com", "")` only the first is retained, although the second has a
different host and a different path, so its pair has no route in the result. -/
theorem getGroupedRoutes_discards_distinct_pair :
    dedupRoutes [mkRoute "example.co" "m" none 1, mkRoute "example.com" "" none 2]
        = [mkRoute "example.co" "m" none 1]
    ∧ (mkRoute "example.com" "" none 2).Host ≠ (mkRoute "example.co" "m" none 1).Host
    ∧ (mkRoute "example.com" "" none 2).Path ≠ (mkRoute "example.co" "m" none 1).Path := by
  decide

theorem length_eq_zero_iff_empty (s : String) : s.length = 0 ↔ s = "" := by
  constructor
  · intro h
    cases s with
    | mk d =>
      have hd : d = [] := List.length_eq_zero.1 h
      subst hd
      rfl
  · rintro rfl; rfl

theorem rootPair_iff (a b : Route) :
    ((a.Path.length == 0 || b.Path.length == 0) && (a.Path == "/" || b.Path == "/")) = true ↔
      (a.Path = "" ∧ b.Path = "/") ∨ (a.Path = "/" ∧ b.Path = "") := by
  simp only [Bool.and_eq_true, Bool.or_eq_true, length_eq_zero_iff_empty, beq_iff_eq]
  constructor
  · rintro ⟨h1 | h1, h2 | h2⟩
    · rw [h1] at h2; exact absurd h2 (by decide)
    · exact Or.inl ⟨h1, h2⟩
    · exact Or.inr ⟨h2, h1⟩
    · rw [h1] at h2; exact absurd h2 (by decide)
  · rintro (⟨h1, h2⟩ | ⟨h1, h2⟩)
    · exact ⟨Or.inl h1, Or.inr h2⟩
    · exact ⟨Or.inr h2, Or.inl h1⟩

/-- C2 (as amended): for two routes with the same host of which one has the
empty path and the other the path `/`, the comparator of `getOrderedRoutes`
ranks the first before the second exactly when the first was created strictly
earlier; for every other pair it ranks by host ascending, then path ascending,
then creation time ascending. -/
theorem routeLess_order (a b : Route) :
    (a.Host = b.Host ∧ ((a.Path = "" ∧ b.Path = "/") ∨ (a.Path = "/" ∧ b.Path = "")) →
        (routeLess a b = true ↔ a.CreationTimestamp < b.CreationTimestamp))
    ∧ (¬ (a.Host = b.Host ∧ ((a.Path = "" ∧ b.Path = "/") ∨ (a.Path = "/" ∧ b.Path = ""))) →
        (routeLess a b = true ↔
          a.Host.toList < b.Host.toList
          ∨ (a.Host = b.Host ∧ a.Path.toList < b.Path.toList)
          ∨ (a.Host = b.Host ∧ a.Path = b.Path ∧ a.CreationTimestamp < b.CreationTimestamp))) := by
  constructor
  · rintro ⟨hh, hp⟩
    have hc : (a.Host == b.Host
        && ((a.Path.length == 0 || b.Path.length == 0) && (a.Path == "/" || b.Path == "/"))) = true := by
      rw [Bool.and_eq_true]
      exact ⟨by simpa using hh, (rootPair_iff a b).2 hp⟩
    unfold routeLess
    rw [if_pos hc]
    simp
  · intro hn
    have hc : ¬ (a.Host == b.Host
        && ((a.Path.length == 0 || b.Path.length == 0) && (a.Path == "/" || b.Path == "/"))) = true := by
      rw [Bool.and_eq_true]
      rintro ⟨h1, h2⟩
      exact hn ⟨by simpa using h1, (rootPair_iff a b).1 h2⟩
    unfold routeLess
    rw [if_neg hc]
    simp only [strLess, Bool.or_eq_true, Bool.and_eq_true, decide_eq_true_eq, beq_iff_eq]
    tauto

/-- The amended C2 at concrete routes: the root paths `""` and `/` are ranked by
age, and the paths `""` and `/a` by the order of the paths. -/
theorem routeLess_order_witness :
    (routeLess (mkRoute "h.com" "/" none 1) (mkRoute "h.com" "" none 2) = true ↔ (1 : Int) < 2)
    ∧ (routeLess (mkRoute "h.com" "" none 2) (mkRoute "h.com" "/a" none 1) = true ↔
        "h.com".toList < "h.com".toList
        ∨ ("h.com" = "h.com" ∧ "".toList < "/a".toList)
        ∨ ("h.com" = "h.com" ∧ "" = "/a" ∧ (2 : Int) < 1)) :=
  ⟨(routeLess_order (mkRoute "h.com" "/" none 1) (mkRoute "h.com" "" none 2)).1
      ⟨rfl, Or.inr ⟨rfl, rfl⟩⟩,
    (routeLess_order (mkRoute "h.com" "" none 2) (mkRoute "h.com" "/a" none 1)).2 (by decide)⟩

/-- C2 (as stated) fails: the two routes have the same host, the first has the
empty path and the second, with path `/a`, was created strictly earlier, yet
the comparator ranks the first before the second and not the second before the
first. -/
theorem routeLess_empty_path_not_by_age :
    (mkRoute "h.com" "" none 2).Host = (mkRoute "h.com" "/a" none 1).Host
    ∧ (mkRoute "h.com" "" none 2).Path = ""
    ∧ (mkRoute "h.com" "/a" none 1).CreationTimestamp < (mkRoute "h.com" "" none 2).CreationTimestamp
    ∧ routeLess (mkRoute "h.com" "/a" none 1) (mkRoute "h.com" "" none 2) = false
    ∧ routeLess (mkRoute "h.com" "" none 2) (mkRoute "h.com" "/a" none 1) = true := by
  decide

theorem doRoutesHandleHTTP_iff (routes : List Route) :
    doRoutesHandleHTTP routes = true ↔
      ∃ r ∈ routes, r.TLS = none ∨ ∃ tls, r.TLS = some tls ∧
        (tls.InsecureEdgeTerminationPolicy = "Allow"
          ∨ tls.InsecureEdgeTerminationPolicy = "Redirect") := by
  induction routes with
  | nil => simp [doRoutesHandleHTTP]
  | cons r rest ih =>
    unfold doRoutesHandleHTTP
    cases hr : r.TLS with
    | none => simp [hr]
    | some tls =>
      simp only [InsecureEdgeTerminationPolicyAllow, InsecureEdgeTerminationPolicyRedirect,
        Bool.or_eq_true, beq_iff_eq]
      by_cases hp : tls.InsecureEdgeTerminationPolicy = "Allow"
          ∨ tls.InsecureEdgeTerminationPolicy = "Redirect"
      · rw [if_pos hp]
        simp only [true_iff]
        exact ⟨r, List.mem_cons_self _ _, Or.inr ⟨tls, hr, hp⟩⟩
      · rw [if_neg hp, ih]
        constructor
        · rintro ⟨x, hx, h⟩
          exact ⟨x, List.mem_cons_of_mem _ hx, h⟩
        · rintro ⟨x, hx, h⟩
          rcases List.mem_cons.1 hx with rfl | hx
          · rcases h with h | ⟨t, ht, h⟩
            · rw [hr] at h; exact absurd h (by simp)
            · rw [hr] at ht
              cases ht
              exact absurd h hp
          · exact ⟨x, hx, h⟩

theorem any_isSecureRoute_iff (routes : List Route) :
    routes.any isSecureRoute = true ↔ ∃ r ∈ routes, r.TLS ≠ none := by
  simp [List.any_eq_true, isSecureRoute, Option.isSome_iff_ne_none]

/-- C3: for a non-empty route list, the protocols for which the port loop of
`processRoutes` builds a config (the ports of `getVirtualPortsForRoutes` that
pass the `doRoutesHandleHTTP` check) are `http` alone when no route has a TLS
block, `http` and `https` when some route has a TLS block and some route is
non-TLS or has insecure policy Allow or Redirect, and `https` alone when every
route has a TLS block and none has insecure policy Allow or Redirect. -/
theorem builtPorts_protocols (k : Ports) (routes : List Route) (hne : routes ≠ []) :
    ((∀ r ∈ routes, r.TLS = none) →
        (builtPorts k routes).map portStruct.protocol = ["http"])
    ∧ ((∃ r ∈ routes, r.TLS ≠ none) →
        (∃ r ∈ routes, r.TLS = none ∨ ∃ tls, r.TLS = some tls ∧
          (tls.InsecureEdgeTerminationPolicy = "Allow"
            ∨ tls.InsecureEdgeTerminationPolicy = "Redirect")) →
        (builtPorts k routes).map portStruct.protocol = ["http", "https"])
    ∧ ((∀ r ∈ routes, ∃ tls, r.TLS = some tls ∧
          tls.InsecureEdgeTerminationPolicy ≠ "Allow"
            ∧ tls.InsecureEdgeTerminationPolicy ≠ "Redirect") →
        (builtPorts k routes).map portStruct.protocol = ["https"]) := by
  refine ⟨?_, ?_, ?_⟩
  · intro hall
    have hsec : ¬ routes.any isSecureRoute = true := by
      rw [any_isSecureRoute_iff]
      rintro ⟨r, hr, h⟩
      exact h (hall r hr)
    have hhttp : doRoutesHandleHTTP routes = true := by
      rw [doRoutesHandleHTTP_iff]
      obtain ⟨r, hr⟩ := List.exists_mem_of_ne_nil routes hne
      exact ⟨r, hr, Or.inl (hall r hr)⟩
    simp [builtPorts, getVirtualPortsForRoutes, hsec, skipsPort, hhttp]
  · intro hsec hh
    have hsec' := (any_isSecureRoute_iff routes).2 hsec
    have hhttp := (doRoutesHandleHTTP_iff routes).2 hh
    simp [builtPorts, getVirtualPortsForRoutes, getBasicVirtualPorts, hsec', skipsPort, hhttp]
  · intro hall
    have hsec' : routes.any isSecureRoute = true := by
      rw [any_isSecureRoute_iff]
      obtain ⟨r, hr⟩ := List.exists_mem_of_ne_nil routes hne
      obtain ⟨tls, ht, _⟩ := hall r hr
      exact ⟨r, hr, by rw [ht]; simp⟩
    have hhttp : doRoutesHandleHTTP routes = false := by
      rw [← Bool.not_eq_true, doRoutesHandleHTTP_iff]
      rintro ⟨r, hr, h⟩
      obtain ⟨tls, ht, h1, h2⟩ := hall r hr
      rcases h with h | ⟨t, ht', h⟩
      · rw [ht] at h; exact absurd h (by simp)
      · rw [ht] at ht'
        cases ht'
        rcases h with h | h
        · exact h1 h
        · exact h2 h
    simp [builtPorts, getVirtualPortsForRoutes, getBasicVirtualPorts, hsec', skipsPort, hhttp]

/-- C3 at concrete route lists: one plain route, a plain route beside a secure
one, and one secure route with insecure policy `None`. -/
theorem builtPorts_protocols_witness :
    (builtPorts ⟨80, 443⟩ [mkRoute "a.com" "/" none 1]).map portStruct.protocol = ["http"]
    ∧ (builtPorts ⟨80, 443⟩
          [mkRoute "a.com" "/" none 1, mkRoute "b.com" "/" (some ⟨"None"⟩) 2]).map
        portStruct.protocol = ["http", "https"]
    ∧ (builtPorts ⟨80, 443⟩ [mkRoute "b.com" "/" (some ⟨"None"⟩) 2]).map portStruct.protocol
        = ["https"] :=
  ⟨(builtPorts_protocols ⟨80, 443⟩ [mkRoute "a.com" "/" none 1] (by decide)).1 (by decide),
    (builtPorts_protocols ⟨80, 443⟩
        [mkRoute "a.com" "/" none 1, mkRoute "b.com" "/" (some ⟨"None"⟩) 2] (by decide)).2.1
      ⟨mkRoute "b.com" "/" (some ⟨"None"⟩) 2, by decide, by decide⟩
      ⟨mkRoute "a.com" "/" none 1, by decide, Or.inl rfl⟩,
    (builtPorts_protocols ⟨80, 443⟩ [mkRoute "b.com" "/" (some ⟨"None"⟩) 2] (by decide)).2.2
      (by
        intro r hr
        rw [List.mem_singleton] at hr
        subst hr
        exact ⟨⟨"None"⟩, rfl, by decide, by decide⟩)⟩

/-! ## The route-group synthesiser and the shared store -/

theorem deleteLoop_apply (env : Env) (rg : String) (spec : ExtendedRouteGroupSpec)
    (ports : List portStruct) (rs : ResourceStore) (p n : String) :
    deleteLoop env rg spec ports rs p n =
      if p = rg ∧ n ∈ ports.map (frameRouteVSName env rg spec) then none else rs p n := by
  induction ports generalizing rs with
  | nil => simp [deleteLoop]
  | cons ps rest ih =>
    unfold deleteLoop
    simp only [getVirtualServer]
    by_cases hpres : (rs rg (frameRouteVSName env rg spec ps)).isSome = true
    · rw [if_pos hpres, ih]
      by_cases h1 : p = rg ∧ n ∈ rest.map (frameRouteVSName env rg spec)
      · rw [if_pos h1, if_pos ⟨h1.1, by simp [h1.2]⟩]
      · rw [if_neg h1]
        unfold deleteVirtualServer
        by_cases h2 : p = rg ∧ n = frameRouteVSName env rg spec ps
        · rw [if_pos h2, if_pos ⟨h2.1, by simp [h2.2]⟩]
        · rw [if_neg h2, if_neg]
          rintro ⟨hp, hn⟩
          rw [List.map_cons] at hn
          rcases List.mem_cons.1 hn with hn | hn
          · exact h2 ⟨hp, hn⟩
          · exact h1 ⟨hp, hn⟩
    · rw [if_neg hpres, ih]
      have hnone : rs rg (frameRouteVSName env rg spec ps) = none := by
        simpa using hpres
      by_cases h1 : p = rg ∧ n ∈ rest.map (frameRouteVSName env rg spec)
      · rw [if_pos h1, if_pos ⟨h1.1, by simp [h1.2]⟩]
      · rw [if_neg h1]
        by_cases h2 : p = rg ∧ n = frameRouteVSName env rg spec ps
        · rw [if_pos ⟨h2.1, by simp [h2.2]⟩, h2.1, h2.2, hnone]
        · rw [if_neg]
          rintro ⟨hp, hn⟩
          rw [List.map_cons] at hn
          rcases List.mem_cons.1 hn with hn | hn
          · exact h2 ⟨hp, hn⟩
          · exact h1 ⟨hp, hn⟩

theorem processRoutes_delete_eq (env : Env) (ctlr : Controller) (rg : String)
    (spec : ExtendedRouteGroupSpec) (del : Bool)
    (hspec : getExtendedRouteSpec ctlr.extdSpecMap rg = some spec)
    (h : del = true ∨ (getGroupedRoutes env rg).length = 0) :
    processRoutes env ctlr rg del =
      (none, { ctlr with
        ltmConfig := deleteLoop env rg spec (getBasicVirtualPorts env.ports) ctlr.ltmConfig }) := by
  unfold processRoutes
  rw [hspec]
  have hc : (del || (getGroupedRoutes env rg).length == 0) = true := by
    rcases h with h | h
    · simp [h]
    · simp [h]
  simp only [hc, if_true]

/-- C8: when the route group has an effective spec and `triggerDelete` is set
or the group has no routes, `processRoutes` returns nil, the store then holds
no virtual server of the group under the name framed for the http port or for
the https port, every other entry is as before, nothing is published (every
config present afterwards was present before), and the extended-spec store is
untouched. -/
theorem processRoutes_delete_removes_virtuals (env : Env) (ctlr : Controller) (rg : String)
    (spec : ExtendedRouteGroupSpec) (del : Bool)
    (hspec : getExtendedRouteSpec ctlr.extdSpecMap rg = some spec)
    (h : del = true ∨ (getGroupedRoutes env rg).length = 0) :
    (processRoutes env ctlr rg del).1 = none
    ∧ (processRoutes env ctlr rg del).2.ltmConfig rg
        (frameRouteVSName env rg spec ⟨"http", env.ports.DEFAULT_HTTP_PORT⟩) = none
    ∧ (processRoutes env ctlr rg del).2.ltmConfig rg
        (frameRouteVSName env rg spec ⟨"https", env.ports.DEFAULT_HTTPS_PORT⟩) = none
    ∧ (∀ p n : String,
        ¬ (p = rg ∧ (n = frameRouteVSName env rg spec ⟨"http", env.ports.DEFAULT_HTTP_PORT⟩
            ∨ n = frameRouteVSName env rg spec ⟨"https", env.ports.DEFAULT_HTTPS_PORT⟩)) →
        (processRoutes env ctlr rg del).2.ltmConfig p n = ctlr.ltmConfig p n)
    ∧ (∀ (p n : String) (cfg : ResourceConfig),
        (processRoutes env ctlr rg del).2.ltmConfig p n = some cfg →
        ctlr.ltmConfig p n = some cfg)
    ∧ (processRoutes env ctlr rg del).2.extdSpecMap = ctlr.extdSpecMap := by
  rw [processRoutes_delete_eq env ctlr rg spec del hspec h]
  simp only [deleteLoop_apply, getBasicVirtualPorts, List.map_cons, List.map_nil,
    List.mem_cons, List.mem_singleton, List.not_mem_nil, or_false]
  refine ⟨trivial, ?_, ?_, ?_, ?_, trivial⟩
  · simp
  · simp
  · intro p n hn
    rw [if_neg hn]
  · intro p n cfg hc
    split at hc
    · exact absurd hc (by simp)
    · exact hc

theorem isOverwrite_id : IsOverwrite (fun s => s) :=
  ⟨fun _ _ => false, fun _ _ => none, fun s p n => by simp⟩

theorem isOverwrite_delete (partition rsName : String) :
    IsOverwrite (fun s => deleteVirtualServer s partition rsName) :=
  ⟨fun p n => decide (p = partition ∧ n = rsName), fun _ _ => none, fun s p n => by
    simp [deleteVirtualServer]⟩

theorem isOverwrite_set (partition rsName : String) (cfg : ResourceConfig) :
    IsOverwrite (fun s => setVirtualServer s partition rsName cfg) :=
  ⟨fun p n => decide (p = partition ∧ n = rsName), fun _ _ => some cfg, fun s p n => by
    simp [setVirtualServer]⟩

theorem isOverwrite_comp {f g : ResourceStore → ResourceStore} (hf : IsOverwrite f)
    (hg : IsOverwrite g) : IsOverwrite (fun s => g (f s)) := by
  obtain ⟨Tf, Vf, hf⟩ := hf
  obtain ⟨Tg, Vg, hg⟩ := hg
  refine ⟨fun p n => Tg p n || Tf p n, fun p n => if Tg p n = true then Vg p n else Vf p n, ?_⟩
  intro s p n
  show g (f s) p n = _
  rw [hg, hf]
  by_cases h1 : Tg p n = true <;> by_cases h2 : Tf p n = true <;> simp [h1, h2]

theorem isOverwrite_idem {f : ResourceStore → ResourceStore} (hf : IsOverwrite f)
    (s : ResourceStore) : f (f s) = f s := by
  obtain ⟨T, V, h⟩ := hf
  funext p n
  rw [h (f s), h s]
  split <;> rfl

theorem isOverwrite_deleteLoop (env : Env) (rg : String) (spec : ExtendedRouteGroupSpec)
    (ports : List portStruct) : IsOverwrite (deleteLoop env rg spec ports) :=
  ⟨fun p n => decide (p = rg ∧ n ∈ ports.map (frameRouteVSName env rg spec)), fun _ _ => none,
    fun s p n => by rw [deleteLoop_apply]; simp⟩

theorem isOverwrite_publish (rg : String) (vs : ResourceMap) : IsOverwrite (publish rg vs) := by
  induction vs with
  | nil => exact isOverwrite_id
  | cons e rest ih =>
    obtain ⟨name, cfg⟩ := e
    have hstep : publish rg ((name, cfg) :: rest)
        = fun s => publish rg rest (setVirtualServer s rg name cfg) := by
      funext s
      rfl
    rw [hstep]
    exact isOverwrite_comp (isOverwrite_set rg name cfg) ih

/-- The port loop changes the store by an overwrite that the store does not
influence, and neither `vsMap` nor `processingError` depends on the store. -/
theorem portLoop_store (env : Env) (pmt rg : String) (spec : ExtendedRouteGroupSpec)
    (routes : List Route) (ports : List portStruct) :
    ∃ F : ResourceStore → ResourceStore, IsOverwrite F ∧
      ∀ (vs : ResourceMap) (pe : Bool),
        ∃ (vs' : ResourceMap) (pe' : Bool), ∀ s' : ResourceStore,
          portLoop env pmt rg spec routes ports ⟨s', vs, pe⟩ = ⟨F s', vs', pe'⟩ := by
  induction ports with
  | nil => exact ⟨fun s => s, isOverwrite_id, fun vs pe => ⟨vs, pe, fun _ => rfl⟩⟩
  | cons ps rest ih =>
    obtain ⟨F, hF, h⟩ := ih
    by_cases hskip : skipsPort routes ps = true
    · refine ⟨fun s => F (deleteVirtualServer s rg (frameRouteVSName env rg spec ps)),
        isOverwrite_comp (isOverwrite_delete _ _) hF, ?_⟩
      intro vs pe
      obtain ⟨vs', pe', h'⟩ := h vs pe
      refine ⟨vs', pe', fun s' => ?_⟩
      rw [portLoop]
      simp only [hskip, if_true]
      exact h' _
    · cases hb : buildConfig env pmt rg spec routes ps with
      | none =>
        refine ⟨fun s => s, isOverwrite_id, fun vs pe => ⟨vs, true, fun s' => ?_⟩⟩
        rw [portLoop]
        simp only [hskip, hb]
        rfl
      | some cfg =>
        refine ⟨F, hF, fun vs pe => ?_⟩
        obtain ⟨vs', pe', h'⟩ := h (mapSet vs (frameRouteVSName env rg spec ps) cfg) pe
        refine ⟨vs', pe', fun s' => ?_⟩
        rw [portLoop]
        simp only [hskip, hb]
        exact h' _

/-- Whatever `processRoutes` does to the store is an overwrite determined by
the environment, the extended-spec store and the pool member type. -/
theorem processRoutes_overwrite (env : Env) (m : extendedSpecMap) (pmt rg : String) (del : Bool) :
    ∃ (e : Option String) (G : ResourceStore → ResourceStore), IsOverwrite G ∧
      ∀ c : Controller, c.extdSpecMap = m → c.PoolMemberType = pmt →
        processRoutes env c rg del = (e, { c with ltmConfig := G c.ltmConfig }) := by
  cases hspec : getExtendedRouteSpec m rg with
  | none =>
    refine ⟨some ("extended Route Spec not available for RouteGroup/Namespace: " ++ rg),
      fun s => s, isOverwrite_id, fun c hm _ => ?_⟩
    subst hm
    unfold processRoutes
    rw [hspec]
  | some spec =>
    by_cases hdel : (del || (getGroupedRoutes env rg).length == 0) = true
    · refine ⟨none, _, isOverwrite_deleteLoop env rg spec (getBasicVirtualPorts env.ports),
        fun c hm _ => ?_⟩
      subst hm
      unfold processRoutes
      rw [hspec]
      simp only [hdel, if_true]
    · obtain ⟨F, hF, h⟩ := portLoop_store env pmt rg spec (getGroupedRoutes env rg)
        (getVirtualPortsForRoutes env.ports (getGroupedRoutes env rg))
      obtain ⟨vs', pe', h'⟩ := h [] false
      cases hpe : pe' with
      | false =>
        refine ⟨none, fun s => publish rg vs' (F s),
          isOverwrite_comp hF (isOverwrite_publish rg vs'), fun c hm hp => ?_⟩
        subst hm
        subst hp
        unfold processRoutes
        rw [hspec]
        simp only [hdel, h', hpe]
        rfl
      | true =>
        refine ⟨none, F, hF, fun c hm hp => ?_⟩
        subst hm
        subst hp
        unfold processRoutes
        rw [hspec]
        simp only [hdel, h', hpe]
        rfl

/-- C9: running `processRoutes(group, false)` again on the controller the first
run left, with the routes, the spec and the collaborators unchanged, returns
the same error and leaves the same controller, so the shared store and every
config in it (the ordinals of its rules included) are those of the first
run. -/
theorem processRoutes_idempotent (env : Env) (ctlr : Controller) (rg : String) :
    processRoutes env (processRoutes env ctlr rg false).2 rg false
      = processRoutes env ctlr rg false := by
  obtain ⟨e, G, hG, h⟩ := processRoutes_overwrite env ctlr.extdSpecMap ctlr.PoolMemberType rg false
  have h1 := h ctlr rfl rfl
  have h2 := h { ctlr with ltmConfig := G ctlr.ltmConfig } rfl rfl
  rw [h1]
  show processRoutes env { ctlr with ltmConfig := G ctlr.ltmConfig } rg false = _
  rw [h2]
  simp only [isOverwrite_idem hG]

theorem doRoutesHandleHTTP_of_not_secure (routes : List Route) (hne : routes ≠ [])
    (h : routes.any isSecureRoute = false) : doRoutesHandleHTTP routes = true := by
  cases routes with
  | nil => exact absurd rfl hne
  | cons r rest =>
    rw [List.any_cons, Bool.or_eq_false_iff] at h
    have hr : r.TLS = none := by
      have := h.1
      simpa [isSecureRoute] using this
    unfold doRoutesHandleHTTP
    rw [hr]

/-- The store a failed run of `processRoutes` leaves: the store it found, less
the http virtual server of the group when no route handles HTTP traffic. -/
theorem processRoutes_failure_store (env : Env) (ctlr : Controller) (rg : String)
    (spec : ExtendedRouteGroupSpec)
    (hspec : getExtendedRouteSpec ctlr.extdSpecMap rg = some spec)
    (hne : getGroupedRoutes env rg ≠ [])
    (hfail : ∃ ps ∈ builtPorts env.ports (getGroupedRoutes env rg),
      buildConfig env ctlr.PoolMemberType rg spec (getGroupedRoutes env rg) ps = none) :
    (processRoutes env ctlr rg false).2.ltmConfig =
      if doRoutesHandleHTTP (getGroupedRoutes env rg) = true then ctlr.ltmConfig
      else deleteVirtualServer ctlr.ltmConfig rg
        (frameRouteVSName env rg spec ⟨"http", env.ports.DEFAULT_HTTP_PORT⟩) := by
  have hlen : ((getGroupedRoutes env rg).length == 0) = false := by
    cases hr : getGroupedRoutes env rg with
    | nil => exact absurd hr hne
    | cons a l => rfl
  unfold processRoutes
  rw [hspec]
  simp only [Bool.false_or, hlen, Bool.false_eq_true, if_false]
  obtain ⟨ps, hps, hb⟩ := hfail
  cases hsec : (getGroupedRoutes env rg).any isSecureRoute with
  | false =>
    have hh := doRoutesHandleHTTP_of_not_secure _ hne hsec
    have hps' : ps = ⟨"http", env.ports.DEFAULT_HTTP_PORT⟩ := by
      simpa [builtPorts, getVirtualPortsForRoutes, hsec, skipsPort, hh] using hps
    subst hps'
    simp [getVirtualPortsForRoutes, hsec, portLoop, skipsPort, hh, hb]
  | true =>
    cases hh : doRoutesHandleHTTP (getGroupedRoutes env rg) with
    | true =>
      have hps' : ps = ⟨"http", env.ports.DEFAULT_HTTP_PORT⟩
          ∨ ps = ⟨"https", env.ports.DEFAULT_HTTPS_PORT⟩ := by
        simpa [builtPorts, getVirtualPortsForRoutes, getBasicVirtualPorts, hsec, skipsPort, hh]
          using hps
      cases hb1 : buildConfig env ctlr.PoolMemberType rg spec (getGroupedRoutes env rg)
          ⟨"http", env.ports.DEFAULT_HTTP_PORT⟩ with
      | none =>
        simp [getVirtualPortsForRoutes, getBasicVirtualPorts, hsec, portLoop, skipsPort, hh, hb1]
      | some cfg =>
        have hb2 : buildConfig env ctlr.PoolMemberType rg spec (getGroupedRoutes env rg)
            ⟨"https", env.ports.DEFAULT_HTTPS_PORT⟩ = none := by
          rcases hps' with h | h
          · rw [h, hb1] at hb; exact absurd hb (by simp)
          · rw [h] at hb; exact hb
        simp [getVirtualPortsForRoutes, getBasicVirtualPorts, hsec, portLoop, skipsPort, hh, hb1,
          hb2]
    | false =>
      have hps' : ps = ⟨"https", env.ports.DEFAULT_HTTPS_PORT⟩ := by
        simpa [builtPorts, getVirtualPortsForRoutes, getBasicVirtualPorts, hsec, skipsPort, hh]
          using hps
      subst hps'
      simp [getVirtualPortsForRoutes, getBasicVirtualPorts, hsec, portLoop, skipsPort, hh, hb]

/-- C7 (as amended): when the route group has an effective spec and a non-empty
route list and the work on some required port fails (service-port resolution,
rule compilation or TLS attachment fails for a route), `processRoutes(group,
false)` publishes nothing: every config in the store afterwards was there
before, every entry other than the http virtual server of the group is
unchanged, and that one entry is unchanged when some route handles HTTP traffic
and absent when none does. -/
theorem processRoutes_failure_publishes_nothing (env : Env) (ctlr : Controller) (rg : String)
    (spec : ExtendedRouteGroupSpec)
    (hspec : getExtendedRouteSpec ctlr.extdSpecMap rg = some spec)
    (hne : getGroupedRoutes env rg ≠ [])
    (hfail : ∃ ps ∈ builtPorts env.ports (getGroupedRoutes env rg),
      buildConfig env ctlr.PoolMemberType rg spec (getGroupedRoutes env rg) ps = none) :
    (∀ (p n : String) (cfg : ResourceConfig),
        (processRoutes env ctlr rg false).2.ltmConfig p n = some cfg →
        ctlr.ltmConfig p n = some cfg)
    ∧ (∀ p n : String,
        ¬ (p = rg ∧ n = frameRouteVSName env rg spec ⟨"http", env.ports.DEFAULT_HTTP_PORT⟩) →
        (processRoutes env ctlr rg false).2.ltmConfig p n = ctlr.ltmConfig p n)
    ∧ (processRoutes env ctlr rg false).2.ltmConfig rg
          (frameRouteVSName env rg spec ⟨"http", env.ports.DEFAULT_HTTP_PORT⟩)
        = if doRoutesHandleHTTP (getGroupedRoutes env rg) = true then
            ctlr.ltmConfig rg (frameRouteVSName env rg spec ⟨"http", env.ports.DEFAULT_HTTP_PORT⟩)
          else none := by
  have hs := processRoutes_failure_store env ctlr rg spec hspec hne hfail
  cases hh : doRoutesHandleHTTP (getGroupedRoutes env rg) with
  | true =>
    rw [hh] at hs
    simp only [if_true] at hs
    rw [hs]
    exact ⟨fun _ _ _ h => h, fun _ _ _ => rfl, by simp⟩
  | false =>
    rw [hh] at hs
    simp only [Bool.false_eq_true, if_false] at hs
    rw [hs]
    simp only [deleteVirtualServer]
    refine ⟨?_, ?_, ?_⟩
    · intro p n cfg h
      split at h
      · exact absurd h (by simp)
      · exact h
    · intro p n hn
      rw [if_neg hn]
    · simp

/-- C7 (as stated) fails: the group `ns1` has an effective spec, its only route
is secure with policy `None`, and service-port resolution fails on the https
port; the http virtual server `vs_80` that was in the store before the call is
gone after it. -/
theorem processRoutes_failure_removes_http_virtual :
    getExtendedRouteSpec exampleCtlr.extdSpecMap "ns1" = some (mkSpec "vs" "")
    ∧ getGroupedRoutes (exampleEnv [secureRoute] none) "ns1" = [secureRoute]
    ∧ buildConfig (exampleEnv [secureRoute] none) exampleCtlr.PoolMemberType "ns1"
        (mkSpec "vs" "") [secureRoute] ⟨"https", 443⟩ = none
    ∧ exampleCtlr.ltmConfig "ns1" "vs_80" = some (namedConfig "vs_80")
    ∧ (processRoutes (exampleEnv [secureRoute] none) exampleCtlr "ns1" false).2.ltmConfig
        "ns1" "vs_80" = none := by
  decide

/-- The amended C7 at the failing run of the route group `ns1`. -/
theorem processRoutes_failure_publishes_nothing_witness :
    (∃ ps ∈ builtPorts (exampleEnv [secureRoute] none).ports
        (getGroupedRoutes (exampleEnv [secureRoute] none) "ns1"),
      buildConfig (exampleEnv [secureRoute] none) exampleCtlr.PoolMemberType "ns1"
        (mkSpec "vs" "") (getGroupedRoutes (exampleEnv [secureRoute] none) "ns1") ps = none)
    ∧ ∀ (p n : String) (cfg : ResourceConfig),
        (processRoutes (exampleEnv [secureRoute] none) exampleCtlr "ns1" false).2.ltmConfig p n
          = some cfg →
        exampleCtlr.ltmConfig p n = some cfg :=
  ⟨⟨⟨"https", 443⟩, by decide, by decide⟩,
    (processRoutes_failure_publishes_nothing (exampleEnv [secureRoute] none) exampleCtlr "ns1"
      (mkSpec "vs" "") (by decide) (by decide) ⟨⟨"https", 443⟩, by decide, by decide⟩).1⟩

/-- C8 at a delete of the route group `ns1`, whose http virtual server is in
the store. -/
theorem processRoutes_delete_removes_virtuals_witness :
    getExtendedRouteSpec exampleCtlr.extdSpecMap "ns1" = some (mkSpec "vs" "")
    ∧ exampleCtlr.ltmConfig "ns1" "vs_80" = some (namedConfig "vs_80")
    ∧ (processRoutes (exampleEnv [plainRoute] (some 8080)) exampleCtlr "ns1" true).2.ltmConfig
        "ns1"
        (frameRouteVSName (exampleEnv [plainRoute] (some 8080)) "ns1" (mkSpec "vs" "")
          ⟨"http", (exampleEnv [plainRoute] (some 8080)).ports.DEFAULT_HTTP_PORT⟩) = none :=
  ⟨by decide, by decide,
    (processRoutes_delete_removes_virtuals (exampleEnv [plainRoute] (some 8080)) exampleCtlr "ns1"
      (mkSpec "vs" "") true (by decide) (Or.inl rfl)).2.1⟩

/-- A successful run publishes the config of the plain route under the name
framed for the http port. -/
theorem processRoutes_publishes_example :
    ((processRoutes (exampleEnv [plainRoute] (some 8080)) exampleCtlr "ns1" false).2.ltmConfig
        "ns1" "vs_80").map (fun cfg => (cfg.Pools.map Pool.Name, cfg.MetaData.hosts))
      = some (["svc_8080_ns1"], ["a.com"]) := by
  decide

/-! ## The extended-spec reconciler -/

/-- C6: when the payload fails strict parsing, and when the ConfigMap is local
and the first entry of its document names another namespace than the
ConfigMap's own, `processConfigMap` returns with a non-nil error, has called
`processRoutes` for no namespace, and leaves the controller, its extended-spec
store included, exactly as it was. -/
theorem processConfigMap_rejects_untouched (env : Env) (ctlr : Controller) (cm : ConfigMap)
    (isDelete : Bool)
    (h : env.UnmarshalStrict (payload cm) = none
      ∨ ∃ (ergc : ExtendedRouteGroupConfig) (rest : List ExtendedRouteGroupConfig),
          env.UnmarshalStrict (payload cm) = some ⟨ergc :: rest⟩
          ∧ isGlobalExtendedRouteSpec ctlr cm = false
          ∧ ergc.Namespace ≠ cm.Namespace) :
    ∃ r : CMResult, processConfigMap env ctlr cm isDelete = some r
      ∧ r.err ≠ none
      ∧ r.run.calls = []
      ∧ r.run.ctlr.extdSpecMap = ctlr.extdSpecMap
      ∧ r.run.ctlr.ltmConfig = ctlr.ltmConfig := by
  rcases h with h | ⟨ergc, rest, hp, hl, hns⟩
  · refine ⟨⟨some ("invalid extended route spec in configmap: " ++ cm.Namespace ++ "/"
        ++ cm.Name), false, ⟨ctlr, []⟩⟩, ?_, ?_, rfl, rfl, rfl⟩
    · unfold processConfigMap
      unfold payload at h
      simp only [h]
    · simp
  · refine ⟨⟨some ("Invalid Extended Route Spec Block in configmap: " ++ cm.Namespace ++ "/"
        ++ cm.Name), true, ⟨ctlr, []⟩⟩, ?_, ?_, rfl, rfl, rfl⟩
    · unfold processConfigMap
      unfold payload at hp
      simp only [hp, hl]
      unfold processLocal
      have : (ergc.Namespace != cm.Namespace) = true := by simpa using hns
      simp only [this, if_true, Bool.false_eq_true, if_false]
    · simp

/-- C6 at a payload that does not parse and at a local ConfigMap of `ns1` whose
document names `ns2`. -/
theorem processConfigMap_rejects_untouched_witness :
    (∃ r : CMResult, processConfigMap (exampleEnv [] none) exampleCtlr globalCM false = some r
      ∧ r.err ≠ none ∧ r.run.calls = [] ∧ r.run.ctlr.extdSpecMap = exampleCtlr.extdSpecMap
      ∧ r.run.ctlr.ltmConfig = exampleCtlr.ltmConfig)
    ∧ (∃ r : CMResult,
        processConfigMap (withDoc (exampleEnv [] none) ⟨[⟨"ns2", false, mkSpec "other" ""⟩]⟩)
          exampleCtlr (localCM "ns1") false = some r
      ∧ r.err ≠ none ∧ r.run.calls = [] ∧ r.run.ctlr.extdSpecMap = exampleCtlr.extdSpecMap
      ∧ r.run.ctlr.ltmConfig = exampleCtlr.ltmConfig) :=
  ⟨processConfigMap_rejects_untouched (exampleEnv [] none) exampleCtlr globalCM false
      (Or.inl rfl),
    processConfigMap_rejects_untouched
      (withDoc (exampleEnv [] none) ⟨[⟨"ns2", false, mkSpec "other" ""⟩]⟩) exampleCtlr
      (localCM "ns1") false
      (Or.inr ⟨⟨"ns2", false, mkSpec "other" ""⟩, [], rfl, by decide, by decide⟩)⟩

theorem lookup_mapSet {β : Type} (m : List (String × β)) (k k' : String) (v : β) :
    (mapSet m k v).lookup k' = if k' = k then some v else m.lookup k' := by
  induction m with
  | nil =>
    by_cases h : k' = k
    · simp [mapSet, List.lookup, h]
    · have hb : (k' == k) = false := by simpa using h
      simp [mapSet, List.lookup, h, hb]
  | cons e rest ih =>
    obtain ⟨a, b⟩ := e
    unfold mapSet
    by_cases ha : a = k
    · subst ha
      by_cases h : k' = a
      · simp [List.lookup, h]
      · have hb : (k' == a) = false := by simpa using h
        simp [List.lookup, h, hb]
    · have hak : (a == k) = false := by simpa using ha
      simp only [hak, Bool.false_eq_true, if_false]
      by_cases h : k' = a
      · subst h
        simp [List.lookup, ha]
      · have hka : (k' == a) = false := by simpa using h
        simp only [List.lookup, hka, ih]

theorem processRoutes_extdSpecMap (env : Env) (c : Controller) (rg : String) (del : Bool) :
    (processRoutes env c rg del).2.extdSpecMap = c.extdSpecMap := by
  obtain ⟨e, G, _, h⟩ := processRoutes_overwrite env c.extdSpecMap c.PoolMemberType rg del
  rw [h c rfl rfl]

theorem run_processRoutes_extdSpecMap (env : Env) (r : Run) (ns : String) (del : Bool) :
    (r.processRoutes env ns del).ctlr.extdSpecMap = r.ctlr.extdSpecMap :=
  processRoutes_extdSpecMap env r.ctlr ns del

theorem run_processRoutes_calls (env : Env) (r : Run) (ns : String) (del : Bool) :
    (r.processRoutes env ns del).calls = r.calls ++ [(ns, del)] := rfl

theorem setLocal_extdSpecMap (r : Run) (ns : String) (spec : extendedParsedSpec)
    (v : Option ExtendedRouteGroupSpec) :
    (setLocal r ns spec v).ctlr.extdSpecMap
      = mapSet r.ctlr.extdSpecMap ns { spec with local_ := v } := rfl

/-- The extended-spec store a local event leaves: the store it found, or that
store with the local half of the named namespace replaced, or, when the
namespace had no entry, with a new entry that has only a local half. -/
theorem processLocal_extdSpecMap (env : Env) (r : Run) (cm : ConfigMap) (isDelete : Bool)
    (ergc : ExtendedRouteGroupConfig) :
    (processLocal env r cm isDelete ergc).run.ctlr.extdSpecMap = r.ctlr.extdSpecMap
    ∨ (∃ spec v, r.ctlr.extdSpecMap.lookup ergc.Namespace = some spec
        ∧ (processLocal env r cm isDelete ergc).run.ctlr.extdSpecMap
            = mapSet r.ctlr.extdSpecMap ergc.Namespace { spec with local_ := v })
    ∨ (r.ctlr.extdSpecMap.lookup ergc.Namespace = none
        ∧ (processLocal env r cm isDelete ergc).run.ctlr.extdSpecMap
            = mapSet r.ctlr.extdSpecMap ergc.Namespace
                ⟨false, some ergc.ExtendedRouteGroupSpec, none⟩) := by
  unfold processLocal
  split
  · exact Or.inl rfl
  · cases hl : r.ctlr.extdSpecMap.lookup ergc.Namespace with
    | none => exact Or.inr (Or.inr ⟨rfl, rfl⟩)
    | some spec =>
      simp only
      split
      · split
        · exact Or.inr (Or.inl ⟨spec, none, rfl, rfl⟩)
        · refine Or.inr (Or.inl ⟨spec, none, rfl, ?_⟩)
          rw [run_processRoutes_extdSpecMap, setLocal_extdSpecMap, run_processRoutes_extdSpecMap]
      · split
        · exact Or.inr (Or.inl ⟨spec, some ergc.ExtendedRouteGroupSpec, rfl, rfl⟩)
        · split
          · exact Or.inr (Or.inl ⟨spec, some ergc.ExtendedRouteGroupSpec, rfl, rfl⟩)
          · split
            · split
              · refine Or.inr (Or.inl ⟨spec, some ergc.ExtendedRouteGroupSpec, rfl, ?_⟩)
                rw [run_processRoutes_extdSpecMap, setLocal_extdSpecMap]
                split
                · rw [run_processRoutes_extdSpecMap]
                · rfl
              · exact Or.inl rfl
            · split
              · refine Or.inr (Or.inl ⟨spec, some ergc.ExtendedRouteGroupSpec, rfl, ?_⟩)
                rw [run_processRoutes_extdSpecMap, setLocal_extdSpecMap]
                split
                · rw [run_processRoutes_extdSpecMap]
                · rfl
              · exact Or.inl rfl

theorem processConfigMap_local_eq (env : Env) (ctlr : Controller) (cm : ConfigMap)
    (isDelete : Bool) (ergc : ExtendedRouteGroupConfig) (rest : List ExtendedRouteGroupConfig)
    (hparse : env.UnmarshalStrict (payload cm) = some ⟨ergc :: rest⟩)
    (hlocal : isGlobalExtendedRouteSpec ctlr cm = false) :
    processConfigMap env ctlr cm isDelete = some (processLocal env ⟨ctlr, []⟩ cm isDelete ergc) := by
  unfold processConfigMap
  unfold payload at hparse
  simp only [hparse, hlocal, Bool.false_eq_true, if_false]

/-- A local event for a namespace whose override is not allowed calls
`processRoutes` for no namespace; an add or update stores the entry as the local
half, and a delete clears the local half of an existing entry. -/
theorem processLocal_no_override (env : Env) (r : Run) (cm : ConfigMap) (isDelete : Bool)
    (ergc : ExtendedRouteGroupConfig)
    (hno : ∀ spec, r.ctlr.extdSpecMap.lookup ergc.Namespace = some spec → spec.override = false) :
    (processLocal env r cm isDelete ergc).run.calls = r.calls
    ∧ (isDelete = false → ergc.Namespace = cm.Namespace →
        ((processLocal env r cm isDelete ergc).run.ctlr.extdSpecMap.lookup ergc.Namespace).map
            extendedParsedSpec.local_ = some (some ergc.ExtendedRouteGroupSpec))
    ∧ (isDelete = true → ergc.Namespace = cm.Namespace →
        (r.ctlr.extdSpecMap.lookup ergc.Namespace).isSome = true →
        ((processLocal env r cm isDelete ergc).run.ctlr.extdSpecMap.lookup ergc.Namespace).map
            extendedParsedSpec.local_ = some none) := by
  unfold processLocal
  by_cases hns : ergc.Namespace = cm.Namespace
  · have hb : (ergc.Namespace != cm.Namespace) = false := by simpa using hns
    simp only [hb, Bool.false_eq_true, if_false]
    cases hl : r.ctlr.extdSpecMap.lookup ergc.Namespace with
    | none =>
      refine ⟨rfl, fun _ _ => ?_, fun _ _ h => absurd h (by simp)⟩
      simp only [lookup_mapSet, if_true, Option.map_some']
    | some spec =>
      have ho := hno spec hl
      cases isDelete with
      | true =>
        simp only [ho, if_true, Bool.not_false]
        refine ⟨rfl, fun h => absurd h (by simp), fun _ _ _ => ?_⟩
        simp only [setLocal_extdSpecMap, lookup_mapSet, if_true, Option.map_some']
      | false =>
        simp only [Bool.false_eq_true, if_false]
        cases hg : spec.global with
        | none =>
          refine ⟨rfl, fun _ _ => ?_, fun h => absurd h (by simp)⟩
          simp only [setLocal_extdSpecMap, lookup_mapSet, if_true, Option.map_some']
        | some g =>
          simp only [ho, if_true, Bool.not_false]
          refine ⟨rfl, fun _ _ => ?_, fun h => absurd h (by simp)⟩
          simp only [setLocal_extdSpecMap, lookup_mapSet, if_true, Option.map_some']
  · have hb : (ergc.Namespace != cm.Namespace) = true := by simpa using hns
    simp only [hb, if_true]
    exact ⟨trivial, fun _ h => absurd h hns, fun _ h => absurd h hns⟩

/-- C10 (as amended): a local ConfigMap event, add, update or delete, leaves the global spec
and the override flag of every namespace in the store as they were, and leaves
the whole entry (the local half included) of every namespace other than the one
its first entry names as it was; when override is not allowed for that
namespace (it has no entry, or its flag is false) `processConfigMap` calls
`processRoutes` for no namespace, an add or update of the namespace's own
ConfigMap stores the entry as the local half, and a delete clears the local
half of an existing entry. -/
theorem processConfigMap_local_frame (env : Env) (ctlr : Controller) (cm : ConfigMap)
    (isDelete : Bool) (ergc : ExtendedRouteGroupConfig) (rest : List ExtendedRouteGroupConfig)
    (hparse : env.UnmarshalStrict (payload cm) = some ⟨ergc :: rest⟩)
    (hlocal : isGlobalExtendedRouteSpec ctlr cm = false) :
    ∃ r : CMResult, processConfigMap env ctlr cm isDelete = some r
      ∧ (∀ ns spec, ctlr.extdSpecMap.lookup ns = some spec →
          ∃ spec', r.run.ctlr.extdSpecMap.lookup ns = some spec'
            ∧ spec'.global = spec.global ∧ spec'.override = spec.override)
      ∧ (∀ ns, ns ≠ ergc.Namespace →
          r.run.ctlr.extdSpecMap.lookup ns = ctlr.extdSpecMap.lookup ns)
      ∧ ((∀ spec, ctlr.extdSpecMap.lookup ergc.Namespace = some spec → spec.override = false) →
          r.run.calls = []
          ∧ (isDelete = false → ergc.Namespace = cm.Namespace →
              (r.run.ctlr.extdSpecMap.lookup ergc.Namespace).map extendedParsedSpec.local_
                = some (some ergc.ExtendedRouteGroupSpec))
          ∧ (isDelete = true → ergc.Namespace = cm.Namespace →
              (ctlr.extdSpecMap.lookup ergc.Namespace).isSome = true →
              (r.run.ctlr.extdSpecMap.lookup ergc.Namespace).map extendedParsedSpec.local_
                = some none)) := by
  refine ⟨_, processConfigMap_local_eq env ctlr cm isDelete ergc rest hparse hlocal, ?_, ?_, ?_⟩
  · intro ns spec hl
    rcases processLocal_extdSpecMap env ⟨ctlr, []⟩ cm isDelete ergc with h | ⟨s, v, hs, h⟩ | ⟨hn, h⟩
    · rw [h]; exact ⟨spec, hl, rfl, rfl⟩
    · rw [h, lookup_mapSet]
      by_cases e : ns = ergc.Namespace
      · subst e
        have : s = spec := by
          have := hs.symm.trans hl
          exact Option.some.inj this
        subst this
        rw [if_pos rfl]
        exact ⟨_, rfl, rfl, rfl⟩
      · rw [if_neg e]; exact ⟨spec, hl, rfl, rfl⟩
    · rw [h, lookup_mapSet]
      by_cases e : ns = ergc.Namespace
      · subst e
        have : (none : Option extendedParsedSpec) = some spec := hn.symm.trans hl
        exact absurd this (by simp)
      · rw [if_neg e]; exact ⟨spec, hl, rfl, rfl⟩
  · intro ns hne
    rcases processLocal_extdSpecMap env ⟨ctlr, []⟩ cm isDelete ergc with h | ⟨s, v, _, h⟩ | ⟨_, h⟩
    · rw [h]
    · rw [h, lookup_mapSet, if_neg hne]
    · rw [h, lookup_mapSet, if_neg hne]
  · intro hno
    exact processLocal_no_override env ⟨ctlr, []⟩ cm isDelete ergc hno

/-- The amended C10 at an add of the local ConfigMap of `ns1`, whose override is not
allowed: no call of `processRoutes`, and the entry is stored as the local
half. -/
theorem processConfigMap_local_frame_witness :
    ∃ r : CMResult,
      processConfigMap (withDoc (exampleEnv [plainRoute] (some 8080))
          ⟨[⟨"ns1", false, mkSpec "local-vs" ""⟩]⟩) exampleCtlr (localCM "ns1") false = some r
      ∧ r.run.calls = []
      ∧ (r.run.ctlr.extdSpecMap.lookup "ns1").map extendedParsedSpec.local_
          = some (some (mkSpec "local-vs" "")) :=
  match processConfigMap_local_frame (withDoc (exampleEnv [plainRoute] (some 8080))
      ⟨[⟨"ns1", false, mkSpec "local-vs" ""⟩]⟩) exampleCtlr (localCM "ns1") false
      ⟨"ns1", false, mkSpec "local-vs" ""⟩ [] rfl (by decide) with
  | ⟨r, h1, _, _, h4⟩ =>
    ⟨r, h1,
      (h4 (fun spec h => by
        cases (show some (globalOnly "vs" "") = some spec from h)
        rfl)).1,
      (h4 (fun spec h => by
        cases (show some (globalOnly "vs" "") = some spec from h)
        rfl)).2.1 rfl rfl⟩

/-- C4 fails on the code: with the namespaces `a`, `b`, `c` stored and visited
in that order, and a global document that drops `a`, renames the virtual server
of `b` and changes only the WAF policy of `c`, the diff of `processConfigMap`
puts `a` in `deletedSpecs`, in `modifiedSpecs` and in `updatedSpecs`, and `b`
in both of the latter. -/
theorem computeSpecLists_overlap :
    computeSpecLists (exampleEnv [] none) storeABC
        (fillNewExtdSpecMap docDropRenameWaf.ExtendedRouteGroupConfigs []) false
      = some ⟨["a"], ["a", "b"], ["a", "b", "c"], []⟩ := by
  decide

/-- C5 fails on the code: with `a` and `b` stored and a global update that
renames the virtual servers of both, `processConfigMap` calls `processRoutes`
only for the namespace visited last and leaves the other with its old global
spec, whichever of the two is visited first. -/
theorem processConfigMap_drops_modified :
    ((processConfigMap (withDoc (exampleEnv [] none) docRenameBoth)
        (mkController storeAB (fun _ _ => none)) globalCM false).map
      (fun r => (r.run.calls, r.run.ctlr.extdSpecMap.lookup "a")))
      = some ([("b", true), ("b", false)], some (globalOnly "va" ""))
    ∧ ((processConfigMap (withRange (withDoc (exampleEnv [] none) docRenameBoth) List.reverse)
        (mkController storeAB (fun _ _ => none)) globalCM false).map
      (fun r => (r.run.calls, r.run.ctlr.extdSpecMap.lookup "b")))
      = some ([("a", true), ("a", false)], some (globalOnly "vb" "")) := by
  decide

/-! ## Local overrides with override allowed -/

/-- C14 (as amended): when namespace `N` has a global spec `G` and override
allowed, a non-delete event of the local ConfigMap of `N` carrying `L` leaves `L`
as the stored local half of `N`, except that the local half stays nil when it
was nil and `L` equals `G`; in every case the effective spec of `N` is `L`
afterwards. -/
theorem processConfigMap_local_override (env : Env) (ctlr : Controller) (cm : ConfigMap)
    (ergc : ExtendedRouteGroupConfig) (rest : List ExtendedRouteGroupConfig)
    (spec : extendedParsedSpec) (G : ExtendedRouteGroupSpec)
    (hparse : env.UnmarshalStrict (payload cm) = some ⟨ergc :: rest⟩)
    (hlocal : isGlobalExtendedRouteSpec ctlr cm = false)
    (hns : ergc.Namespace = cm.Namespace)
    (hentry : ctlr.extdSpecMap.lookup ergc.Namespace = some spec)
    (hG : spec.global = some G) (hov : spec.override = true) :
    ∃ r : CMResult, processConfigMap env ctlr cm false = some r
      ∧ (r.run.ctlr.extdSpecMap.lookup ergc.Namespace).map extendedParsedSpec.local_
          = some (if spec.local_ = none ∧ G = ergc.ExtendedRouteGroupSpec then none
                  else some ergc.ExtendedRouteGroupSpec)
      ∧ getExtendedRouteSpec r.run.ctlr.extdSpecMap ergc.Namespace
          = some ergc.ExtendedRouteGroupSpec := by
  refine ⟨_, processConfigMap_local_eq env ctlr cm false ergc rest hparse hlocal, ?_⟩
  have hb : (ergc.Namespace != cm.Namespace) = false := by simpa using hns
  unfold processLocal
  simp only [hb, Bool.false_eq_true, if_false, hentry, hG, hov, Bool.not_true]
  cases hl : spec.local_ with
  | none =>
    by_cases hne : G = ergc.ExtendedRouteGroupSpec
    · simp [hne, hentry, getExtendedRouteSpec, hl, hG, hov]
    · simp [hne, run_processRoutes_extdSpecMap, setLocal_extdSpecMap, lookup_mapSet,
        getExtendedRouteSpec, hov]
  | some l =>
    by_cases hne : l = ergc.ExtendedRouteGroupSpec
    · simp [hne, hentry, getExtendedRouteSpec, hl, hov]
    · simp [hne, run_processRoutes_extdSpecMap, setLocal_extdSpecMap, lookup_mapSet,
        getExtendedRouteSpec, hov]

/-- The amended C14 at an add of a local spec that differs from the global
one. -/
theorem processConfigMap_local_override_witness :
    ∃ r : CMResult,
      processConfigMap (withDoc (exampleEnv [] none) ⟨[⟨"ns1", false, mkSpec "mine" ""⟩]⟩)
        overrideCtlr (localCM "ns1") false = some r
      ∧ getExtendedRouteSpec r.run.ctlr.extdSpecMap "ns1" = some (mkSpec "mine" "") :=
  match processConfigMap_local_override
      (withDoc (exampleEnv [] none) ⟨[⟨"ns1", false, mkSpec "mine" ""⟩]⟩) overrideCtlr
      (localCM "ns1") ⟨"ns1", false, mkSpec "mine" ""⟩ [] ⟨true, none, some (mkSpec "vs" "")⟩
      (mkSpec "vs" "") rfl (by decide) rfl (by decide) rfl rfl with
  | ⟨r, h1, _, h3⟩ => ⟨r, h1, h3⟩

/-- C14 (as stated) fails: `ns1` has the global spec named `vs`, override
allowed and no local half; after the add of a local ConfigMap of `ns1` that
carries the same spec the stored local half of `ns1` is still nil. -/
theorem processConfigMap_local_equal_global_not_stored :
    overrideCtlr.extdSpecMap.lookup "ns1" = some ⟨true, none, some (mkSpec "vs" "")⟩
    ∧ (processConfigMap (withDoc (exampleEnv [] none) ⟨[⟨"ns1", false, mkSpec "vs" ""⟩]⟩)
        overrideCtlr (localCM "ns1") false).map
        (fun r => (r.run.ctlr.extdSpecMap.lookup "ns1").map extendedParsedSpec.local_)
      = some (some none) := by
  decide

/-! ## Panics of the global path -/

/-- C12 fails on the code. From the empty store, the add of a local ConfigMap
of `ns1` returns and leaves an entry of `ns1` with a nil global half; the
global update that then names `ns1` panics on reading that nil global half in
the diff. The delete of a global ConfigMap that names `ns1` panics on an empty
store, where `ns1` has no entry. And with `a` and `b` stored and visited in
that order, the global update that drops `a` and renames the virtual server of
`b` panics in the loop over `modifiedSpecs`, which holds `a` as well. -/
theorem processConfigMap_global_panics :
    (processConfigMap docsEnv emptyCtlr (cmWith "ns1" "local-cm" "local-ns1") false).map
        (fun r => r.run.ctlr.extdSpecMap)
      = some [("ns1", ⟨false, some (mkSpec "mine" ""), none⟩)]
    ∧ ((processConfigMap docsEnv emptyCtlr (cmWith "ns1" "local-cm" "local-ns1") false).bind
        (fun r => processConfigMap docsEnv r.run.ctlr
          (cmWith "kube-system" "global-cm" "global-ns1") false)).isNone = true
    ∧ (processConfigMap docsEnv emptyCtlr (cmWith "kube-system" "global-cm" "global-ns1")
        true).isNone = true
    ∧ (processConfigMap docsEnv (mkController storeAB (fun _ _ => none))
        (cmWith "kube-system" "global-cm" "global-b") false).isNone = true := by
  decide

/-! ## The comparator as an ordering -/

theorem processRoutes_err_isSome (env : Env) (c : Controller) (rg : String) (del : Bool) :
    (processRoutes env c rg del).1.isSome = (getExtendedRouteSpec c.extdSpecMap rg).isNone := by
  unfold processRoutes
  cases getExtendedRouteSpec c.extdSpecMap rg with
  | none => rfl
  | some spec =>
    simp only
    split
    · rfl
    · split <;> rfl

theorem processNativeResource_route (env : Env) (d : DispatchEnv) (w : Worker) (rt : Route)
    (del : Bool) (hinit : w.ctlr.initState = false) :
    ∃ w' : Worker, processNativeResource env d w ⟨.route rt, del⟩ = some w'
      ∧ w'.queueOps = w.queueOps ++
          [if (getExtendedRouteSpec w.ctlr.extdSpecMap rt.Namespace).isNone = true then
              QueueOp.AddRateLimited ⟨.route rt, del⟩
            else QueueOp.Forget ⟨.route rt, del⟩,
            QueueOp.Done ⟨.route rt, del⟩] := by
  have he := processRoutes_err_isSome env w.ctlr rt.Namespace false
  unfold processNativeResource
  simp only [hinit, Bool.false_and, Bool.false_eq_true, if_false, dispatch]
  cases hp : processRoutes env w.ctlr rt.Namespace false with
  | mk e c =>
    rw [hp] at he
    cases e with
    | some msg =>
      have hn : (getExtendedRouteSpec w.ctlr.extdSpecMap rt.Namespace).isNone = true := by
        simpa using he.symm
      simp only [if_true, hn]
      refine ⟨_, rfl, ?_⟩
      split <;> simp
    | none =>
      have hn : (getExtendedRouteSpec w.ctlr.extdSpecMap rt.Namespace).isNone = false := by
        simpa using he.symm
      simp only [Bool.false_eq_true, if_false, hn]
      refine ⟨_, rfl, ?_⟩
      split <;> simp

/-- C11 (as amended): for a Route work item dispatched outside the bulk load,
`processNativeResource` marks the item retryable and re-adds it rate-limited
exactly when the route's group has no effective spec; whenever the group has an
effective spec, also when service-port resolution, rule compilation or TLS
attachment fails for a route on a required port, the retry state of the item is
cleared (`Forget`) and it is not re-added. -/
theorem processNativeResource_route_retry (env : Env) (d : DispatchEnv) (w : Worker)
    (rt : Route) (del : Bool) (hinit : w.ctlr.initState = false) :
    ∃ w' : Worker, processNativeResource env d w ⟨.route rt, del⟩ = some w'
      ∧ (getExtendedRouteSpec w.ctlr.extdSpecMap rt.Namespace = none →
          w'.queueOps = w.queueOps ++
            [QueueOp.AddRateLimited ⟨.route rt, del⟩, QueueOp.Done ⟨.route rt, del⟩])
      ∧ (∀ spec, getExtendedRouteSpec w.ctlr.extdSpecMap rt.Namespace = some spec →
          w'.queueOps = w.queueOps ++
            [QueueOp.Forget ⟨.route rt, del⟩, QueueOp.Done ⟨.route rt, del⟩]) := by
  obtain ⟨w', h1, h2⟩ := processNativeResource_route env d w rt del hinit
  refine ⟨w', h1, ?_, ?_⟩
  · intro hn
    rw [h2, hn]
    rfl
  · intro spec hs
    rw [h2, hs]
    rfl

/-- The amended C11 at a route of `ns1` handled by a worker whose store has no
entry for `ns1`: the item is re-added rate-limited. -/
theorem processNativeResource_route_retry_witness :
    (mkWorker emptyCtlr).ctlr.initState = false
    ∧ ∃ w' : Worker,
        processNativeResource (exampleEnv [plainRoute] (some 8080)) exampleDispatchEnv
          (mkWorker emptyCtlr) ⟨.route plainRoute, false⟩ = some w'
        ∧ w'.queueOps = (mkWorker emptyCtlr).queueOps ++
            [QueueOp.AddRateLimited ⟨.route plainRoute, false⟩,
              QueueOp.Done ⟨.route plainRoute, false⟩] :=
  ⟨rfl,
    match processNativeResource_route_retry (exampleEnv [plainRoute] (some 8080))
        exampleDispatchEnv (mkWorker emptyCtlr) plainRoute false rfl with
    | ⟨w', h1, h2, _⟩ => ⟨w', h1, h2 rfl⟩⟩

/-- C11 (as stated) fails: the group `ns1` has an effective spec, service-port
resolution fails for its secure route on the https port, and the worker is past
the bulk load; the route item is forgotten and not re-added. -/
theorem processNativeResource_route_failure_forgotten :
    (mkWorker exampleCtlr).ctlr.initState = false
    ∧ getServicePort (exampleEnv [secureRoute] none) secureRoute
        = .error "Error while processing port for route b.com/"
    ∧ buildConfig (exampleEnv [secureRoute] none) exampleCtlr.PoolMemberType "ns1"
        (mkSpec "vs" "") (getGroupedRoutes (exampleEnv [secureRoute] none) "ns1")
        ⟨"https", 443⟩ = none
    ∧ (processNativeResource (exampleEnv [secureRoute] none) exampleDispatchEnv
        (mkWorker exampleCtlr) ⟨.route secureRoute, false⟩).map Worker.queueOps
      = some [QueueOp.Forget ⟨.route secureRoute, false⟩,
          QueueOp.Done ⟨.route secureRoute, false⟩] := by
  refine ⟨rfl, rfl, by decide, by decide⟩

/-! ## Deduplication on admitted routes -/

theorem hostPathKey_eq_iff_hostPath (a b : Route) (ha : wellFormedRoute a)
    (hb : wellFormedRoute b) : hostPathKey a = hostPathKey b ↔ hostPath a = hostPath b := by
  rw [hostPathKey_inj a b ha hb]
  simp [hostPath, Prod.ext_iff]

theorem find?_congr_on {α : Type} (l : List α) (p q : α → Bool) (h : ∀ x ∈ l, p x = q x) :
    l.find? p = l.find? q := by
  induction l with
  | nil => rfl
  | cons a rest ih =>
    have ha := h a (List.mem_cons_self _ _)
    have ih' := ih (fun x hx => h x (List.mem_cons_of_mem _ hx))
    simp only [List.find?_cons, ha, ih']

theorem dedupRoutes_find_hostPath (l : List Route) (hwf : ∀ r ∈ l, wellFormedRoute r)
    (hp : String × String) :
    (dedupRoutes l).find? (fun x => hostPath x == hp) = l.find? (fun x => hostPath x == hp) := by
  have hsub : ∀ x ∈ dedupRoutes l, x ∈ l := fun x hx => (mem_groupLoop l [] x hx).1
  by_cases hocc : ∃ y ∈ l, hostPath y = hp
  · obtain ⟨y, hy, hyp⟩ := hocc
    have hpred : ∀ x ∈ l, (hostPath x == hp) = (hostPathKey x == hostPathKey y) := by
      intro x hx
      have := hostPathKey_eq_iff_hostPath x y (hwf x hx) (hwf y hy)
      rw [← hyp]
      by_cases e : hostPath x = hostPath y
      · simp [e, this.2 e]
      · have e' : ¬ hostPathKey x = hostPathKey y := fun h => e (this.1 h)
        simp [e, e']
    rw [find?_congr_on (dedupRoutes l) _ _ (fun x hx => hpred x (hsub x hx)),
      find?_congr_on l _ _ hpred]
    have := groupLoop_find l [] (hostPathKey y)
    rwa [if_neg (List.not_mem_nil _)] at this
  · have h1 : l.find? (fun x => hostPath x == hp) = none := by
      rw [List.find?_eq_none]
      intro x hx hc
      exact hocc ⟨x, hx, by simpa using hc⟩
    have h2 : (dedupRoutes l).find? (fun x => hostPath x == hp) = none := by
      rw [List.find?_eq_none]
      intro x hx hc
      exact hocc ⟨x, hsub x hx, by simpa using hc⟩
    rw [h1, h2]

theorem dedupRoutes_snoc_key (pre : List Route) (r : Route) :
    dedupRoutes (pre ++ [r]) =
      if ∃ x ∈ dedupRoutes pre, hostPathKey x = hostPathKey r then dedupRoutes pre
      else dedupRoutes pre ++ [r] := by
  have h := groupLoop_snoc pre r []
  have hc : (hostPathKey r ∈ ([] : List String) ∨ ∃ x ∈ pre, hostPathKey x = hostPathKey r) ↔
      ∃ x ∈ dedupRoutes pre, hostPathKey x = hostPathKey r := by
    constructor
    · rintro (h | ⟨x, hx, hk⟩)
      · exact absurd h (List.not_mem_nil _)
      · have := (mem_dedupRoutes_keys pre (hostPathKey r)).2 (List.mem_map.2 ⟨x, hx, hk⟩)
        obtain ⟨y, hy, hyk⟩ := List.mem_map.1 this
        exact ⟨y, hy, hyk⟩
    · rintro ⟨x, hx, hk⟩
      exact Or.inr ⟨x, (mem_groupLoop pre [] x hx).1, hk⟩
  rw [if_congr hc rfl rfl] at h
  exact h

theorem dedupRoutes_length_hostPath (l : List Route) (hwf : ∀ r ∈ l, wellFormedRoute r) :
    (dedupRoutes l).length = (l.map hostPath).toFinset.card := by
  have hsub : ∀ x ∈ dedupRoutes l, x ∈ l := fun x hx => (mem_groupLoop l [] x hx).1
  have hnd : ((dedupRoutes l).map hostPath).Nodup := by
    have hk : ((dedupRoutes l).map hostPathKey).Nodup := groupLoop_keys_nodup l []
    have e : (dedupRoutes l).map hostPathKey
        = ((dedupRoutes l).map hostPath).map (fun hp => hp.1 ++ hp.2) := by
      rw [List.map_map]
      rfl
    rw [e] at hk
    exact List.Nodup.of_map _ hk
  have h1 : ((dedupRoutes l).map hostPath).toFinset = (l.map hostPath).toFinset := by
    ext hp
    simp only [List.mem_toFinset, List.mem_map]
    constructor
    · rintro ⟨x, hx, e⟩
      exact ⟨x, hsub x hx, e⟩
    · rintro ⟨x, hx, e⟩
      have := (mem_dedupRoutes_keys l (hostPathKey x)).2 (List.mem_map.2 ⟨x, hx, rfl⟩)
      obtain ⟨y, hy, hyk⟩ := List.mem_map.1 this
      exact ⟨y, hy, ((hostPathKey_eq_iff_hostPath y x (hwf y (hsub y hy)) (hwf x hx)).1 hyk).trans e⟩
  rw [← h1, List.toFinset_card_of_nodup hnd, List.length_map]

theorem dedupRoutes_hostPath_nodup (l : List Route) : ((dedupRoutes l).map hostPath).Nodup := by
  have hk : ((dedupRoutes l).map hostPathKey).Nodup := groupLoop_keys_nodup l []
  have e : (dedupRoutes l).map hostPathKey
      = ((dedupRoutes l).map hostPath).map (fun hp => hp.1 ++ hp.2) := by
    rw [List.map_map]
    rfl
  rw [e] at hk
  exact List.Nodup.of_map _ hk

/-- C1: for every ordered list of routes of a group, each with a host that has
no slash and a path that is empty or begins with a slash (the routes the API
server admits), `getGroupedRoutes` returns a sub-list of it, in the same
relative order, in which no two routes have the same `(host, path)` pair and in
which, for every pair, the route with that pair is the first route of the input
with it; a route of the input is discarded exactly when an earlier retained
route has the identical host and the identical path, and the number of
discarded routes is the number of routes beyond the first of their pair. -/
theorem getGroupedRoutes_first_per_host_path (l : List Route)
    (hwf : ∀ r ∈ l, wellFormedRoute r) :
    (dedupRoutes l).Sublist l
    ∧ ((dedupRoutes l).map hostPath).Nodup
    ∧ (∀ hp : String × String, (dedupRoutes l).find? (fun x => hostPath x == hp)
          = l.find? (fun x => hostPath x == hp))
    ∧ (∀ (pre : List Route) (r : Route) (post : List Route), l = pre ++ r :: post →
          dedupRoutes (pre ++ [r]) =
            if ∃ x ∈ dedupRoutes pre, x.Host = r.Host ∧ x.Path = r.Path then dedupRoutes pre
            else dedupRoutes pre ++ [r])
    ∧ l.length - (dedupRoutes l).length = l.length - (l.map hostPath).toFinset.card := by
  refine ⟨groupLoop_sublist l [], dedupRoutes_hostPath_nodup l,
    dedupRoutes_find_hostPath l hwf, ?_, ?_⟩
  · intro pre r post hl
    rw [dedupRoutes_snoc_key]
    have hr : wellFormedRoute r := hwf r (by rw [hl]; simp)
    have hc : (∃ x ∈ dedupRoutes pre, hostPathKey x = hostPathKey r) ↔
        ∃ x ∈ dedupRoutes pre, x.Host = r.Host ∧ x.Path = r.Path := by
      constructor
      · rintro ⟨x, hx, hk⟩
        have hxl : x ∈ l := by
          rw [hl]
          exact List.mem_append_left _ (mem_groupLoop pre [] x hx).1
        exact ⟨x, hx, (hostPathKey_inj x r (hwf x hxl) hr).1 hk⟩
      · rintro ⟨x, hx, hk⟩
        have hxl : x ∈ l := by
          rw [hl]
          exact List.mem_append_left _ (mem_groupLoop pre [] x hx).1
        exact ⟨x, hx, (hostPathKey_inj x r (hwf x hxl) hr).2 hk⟩
    rw [if_congr hc rfl rfl]
  · rw [dedupRoutes_length_hostPath l hwf]

/-- C1 at three routes of which the second repeats the host and path of the
first: the second is the one discarded. -/
theorem getGroupedRoutes_first_per_host_path_witness :
    (∀ r ∈ [mkRoute "a.com" "/" none 1, mkRoute "a.com" "/" none 2, mkRoute "a.com" "/x" none 3],
        wellFormedRoute r)
    ∧ dedupRoutes [mkRoute "a.com" "/" none 1, mkRoute "a.com" "/" none 2,
        mkRoute "a.com" "/x" none 3]
      = [mkRoute "a.com" "/" none 1, mkRoute "a.com" "/x" none 3]
    ∧ ((dedupRoutes [mkRoute "a.com" "/" none 1, mkRoute "a.com" "/" none 2,
        mkRoute "a.com" "/x" none 3]).map hostPath).Nodup :=
  ⟨by decide, by decide,
    (getGroupedRoutes_first_per_host_path
      [mkRoute "a.com" "/" none 1, mkRoute "a.com" "/" none 2, mkRoute "a.com" "/x" none 3]
      (by decide)).2.1⟩

/-- C10 (as stated) fails: `ns1` has override not allowed and a stored local
half; the delete of the local ConfigMap of `ns1` calls `processRoutes` for no
namespace and leaves `ns1` with a nil local half, so the entry of the document
is not stored. -/
theorem processConfigMap_local_delete_clears :
    latentCtlr.extdSpecMap.lookup "ns1"
      = some ⟨false, some (mkSpec "mine" ""), some (mkSpec "vs" "")⟩
    ∧ (processConfigMap (withDoc (exampleEnv [] none) ⟨[⟨"ns1", false, mkSpec "mine" ""⟩]⟩)
        latentCtlr (localCM "ns1") true).map
        (fun r => (r.run.calls,
          (r.run.ctlr.extdSpecMap.lookup "ns1").map extendedParsedSpec.local_))
      = some ([], some none) := by
  decide

end Ctlr
